import Mathlib

/-!
Game-state engine of `tetrisFinal.cpp`

A shallow embedding of the engine part of `class TetrisGame`
(`src/tetrisFinal.cpp`): the playfield, the active piece, collision,
placement, line clearing, scoring, rotation, the gravity clock and the
per-frame command dispatch.

Modelling conventions.

* `int` fields are mathematical integers (`Int`); `double` fields are exact
  rationals (`Rat`); `float` colour components are exact rationals.  The
  source's `int` is 32 bits wide: `updateScore` is the arithmetic of
  `TetrisGame::updateScore` over the integers, `updateScore32` is the same
  body with every `int` result reduced to 32 bits (`wrapInt32`), and the two
  agree as long as the sums stay in the `int` range.
* `int grid[20][15]` and `float gridColors[20][15][3]` are total functions on
  `Fin 20 × Fin 15`.  An array access whose index is out of range is
  undefined behaviour in the source; the operations that can perform one
  (`placePiece`, the `SCORE_VALUES` lookup) return `none` there.
* A loop that the source does not bound syntactically (`clearLines`, the
  hard-drop `while`) takes a fuel argument and returns `none` when the fuel
  is used up.
* `shapeDist(rng)` is passed in as the drawn value, a `Fin 7`.
* Rendering, fonts, OpenGL handles and the raw key/mouse polling are not
  modelled; `Input` carries the edge-detected results that `handleInput`
  reads after `updateInput`.
-/

namespace Tetris

abbrev GRID_WIDTH : Nat := 15
abbrev GRID_HEIGHT : Nat := 20

/-- `float color[3]`. -/
abbrev Color := Fin 3 → Rat

/-- `int grid[GRID_HEIGHT][GRID_WIDTH]`. -/
abbrev Grid := Fin GRID_HEIGHT → Fin GRID_WIDTH → Int

/-- `float gridColors[GRID_HEIGHT][GRID_WIDTH][3]`. -/
abbrev GridColors := Fin GRID_HEIGHT → Fin GRID_WIDTH → Color

/-- `const int TETROMINO_SHAPES[7][4][4]`. -/
def TETROMINO_SHAPES : Fin 7 → Fin 4 → Fin 4 → Int :=
  ![ ![ ![0,0,0,0], ![1,1,1,1], ![0,0,0,0], ![0,0,0,0] ],
     ![ ![0,0,0,0], ![0,1,1,0], ![0,1,1,0], ![0,0,0,0] ],
     ![ ![0,0,0,0], ![0,1,0,0], ![1,1,1,0], ![0,0,0,0] ],
     ![ ![0,0,0,0], ![0,1,1,0], ![1,1,0,0], ![0,0,0,0] ],
     ![ ![0,0,0,0], ![1,1,0,0], ![0,1,1,0], ![0,0,0,0] ],
     ![ ![0,0,0,0], ![1,0,0,0], ![1,1,1,0], ![0,0,0,0] ],
     ![ ![0,0,0,0], ![0,0,1,0], ![1,1,1,0], ![0,0,0,0] ] ]

/-- `const float TETROMINO_COLORS[7][3]`. -/
def TETROMINO_COLORS : Fin 7 → Color :=
  ![ ![0, 1, 1],
     ![1, 1, 0],
     ![1/2, 0, 1/2],
     ![0, 1, 0],
     ![1, 0, 0],
     ![0, 0, 1],
     ![1, 1/2, 0] ]

/-- `const int SCORE_VALUES[4]`. -/
def SCORE_VALUES : List Int := [40, 100, 300, 1200]

/-- `struct Tetromino`. -/
structure Tetromino where
  shape : Fin 4 → Fin 4 → Int
  color : Color
  x : Int
  y : Int
  type : Int

namespace Tetromino

/-- The default constructor `Tetromino()`: everything zeroed. -/
def zero : Tetromino :=
  { shape := fun _ _ => 0, color := fun _ => 0, x := 0, y := 0, type := 0 }

/-- `Tetromino::setType`. -/
def setType (p : Tetromino) (newType : Fin 7) : Tetromino :=
  { p with
    type := (newType.val : Int)
    shape := TETROMINO_SHAPES newType
    color := TETROMINO_COLORS newType }

end Tetromino

/-- The engine fields of `class TetrisGame`. -/
structure TetrisGame where
  grid : Grid
  gridColors : GridColors
  currentPiece : Tetromino
  nextPiece : Tetromino
  lastFallTime : Rat
  fallSpeed : Rat
  baseFallSpeed : Rat
  gameOver : Bool
  gamePaused : Bool
  showHelp : Bool
  score : Int
  level : Int
  linesCleared : Int

/-- What `handleInput` reads after `updateInput`: the edge-detected mouse
click (`isMouseClicked()`), the hover tests of the three buttons (for the
close button only its geometric part; the source conjoins it with `showHelp`)
and `isKeyPressed(k)` for each key the handler looks at. -/
structure Input where
  mouseClicked : Bool
  restartButtonHovered : Bool
  helpButtonHovered : Bool
  closeHelpButtonArea : Bool
  keyP : Bool
  keyR : Bool
  keyLeft : Bool
  keyA : Bool
  keyRight : Bool
  keyD : Bool
  keyDown : Bool
  keyS : Bool
  keySpace : Bool
  keyUp : Bool
  keyW : Bool

/-- The array write `a[y][x] = v`. -/
def setCell {α : Type} (a : Fin GRID_HEIGHT → Fin GRID_WIDTH → α)
    (y : Fin GRID_HEIGHT) (x : Fin GRID_WIDTH) (v : α) :
    Fin GRID_HEIGHT → Fin GRID_WIDTH → α :=
  fun y1 x1 => if y1 = y ∧ x1 = x then v else a y1 x1

/-- A row index as an array subscript, when it is in range. -/
def toRow (y : Int) : Option (Fin GRID_HEIGHT) :=
  if h : 0 ≤ y ∧ y < GRID_HEIGHT then some ⟨y.toNat, by omega⟩ else none

/-- A column index as an array subscript, when it is in range. -/
def toCol (x : Int) : Option (Fin GRID_WIDTH) :=
  if h : 0 ≤ x ∧ x < GRID_WIDTH then some ⟨x.toNat, by omega⟩ else none

/-- The read `grid[y][x]` for integer subscripts; `0` stands for a read out of
range, which no caller below performs. -/
def gridAt (g : Grid) (y x : Int) : Int :=
  match toRow y, toCol x with
  | some r, some c => g r c
  | _, _ => 0

/-- The value of a 32-bit two's-complement `int` that holds `z` modulo
`2^32`. -/
def wrapInt32 (z : Int) : Int := (z + 2147483648) % 4294967296 - 2147483648

/-- The range of a 32-bit `int`. -/
def InInt32 (z : Int) : Prop := -2147483648 ≤ z ∧ z ≤ 2147483647

namespace TetrisGame

/-- `TetrisGame::checkCollision`. The two nested `for` loops with their early
`return true` are `List.any`. -/
def checkCollision (s : TetrisGame) (piece : Tetromino) (dx dy : Int) : Bool :=
  (List.finRange 4).any fun y =>
    (List.finRange 4).any fun x =>
      decide (piece.shape y x ≠ 0) &&
        (let newX := piece.x + (x.val : Int) + dx
         let newY := piece.y + (y.val : Int) + dy
         (decide (newX < 0) || decide (newX ≥ GRID_WIDTH) || decide (newY ≥ GRID_HEIGHT)) ||
           (decide (newY ≥ 0) && decide (gridAt s.grid newY newX ≠ 0)))

/-- `TetrisGame::spawnNewPiece`, with `r` the value drawn by `shapeDist(rng)`. -/
def spawnNewPiece (s : TetrisGame) (r : Fin 7) : TetrisGame :=
  let cur : Tetromino :=
    { s.nextPiece with x := Int.tdiv (GRID_WIDTH : Int) 2 - 2, y := 0 }
  let s1 : TetrisGame :=
    { s with currentPiece := cur, nextPiece := s.nextPiece.setType r }
  if s1.checkCollision s1.currentPiece 0 0 then { s1 with gameOver := true } else s1

/-- The body of the double loop of `placePiece` at matrix cell `(y, x)`. The
writes `grid[gridY][gridX]` are guarded by `gridY >= 0` only; a subscript out
of range gives `none`. -/
def placeCell (s : TetrisGame) (y x : Fin 4) : Option TetrisGame :=
  if s.currentPiece.shape y x ≠ 0 then
    let gridX := s.currentPiece.x + (x.val : Int)
    let gridY := s.currentPiece.y + (y.val : Int)
    if gridY ≥ 0 then
      match toRow gridY, toCol gridX with
      | some r, some c =>
          some { s with
            grid := setCell s.grid r c 1
            gridColors := setCell s.gridColors r c s.currentPiece.color }
      | _, _ => none
    else some s
  else some s

/-- The matrix cells in the order the double loops visit them. -/
def matrixCells : List (Fin 4 × Fin 4) :=
  (List.finRange 4).flatMap fun y => (List.finRange 4).map fun x => (y, x)

/-- The merge step of `placePiece`: its double loop, before `clearLines`. -/
def mergePiece (s : TetrisGame) : Option TetrisGame :=
  matrixCells.foldlM (fun acc c => placeCell acc c.1 c.2) s

/-- The test `fullLine` of `clearLines` for row `y`. -/
def fullLine (s : TetrisGame) (y : Fin GRID_HEIGHT) : Bool :=
  (List.finRange GRID_WIDTH).all fun x => decide (s.grid y x ≠ 0)

/-- One pass of the inner loop `for x` of the shift:
`grid[moveY][x] = grid[moveY-1][x]` and the `memcpy` of the colour. -/
def copyRowDown (s : TetrisGame) (moveY prev : Fin GRID_HEIGHT) : TetrisGame :=
  (List.finRange GRID_WIDTH).foldl
    (fun acc x =>
      { acc with
        grid := setCell acc.grid moveY x (acc.grid prev x)
        gridColors := setCell acc.gridColors moveY x (acc.gridColors prev x) })
    s

/-- The loop `for (moveY = y; moveY > 0; moveY--)` of `clearLines`. -/
def shiftRows (s : TetrisGame) : (moveY : Nat) → moveY < GRID_HEIGHT → TetrisGame
  | 0, _ => s
  | m + 1, h => shiftRows (copyRowDown s ⟨m + 1, h⟩ ⟨m, by omega⟩) m (by omega)

/-- The loop that empties row 0 in `clearLines`. -/
def clearTopRow (s : TetrisGame) : TetrisGame :=
  (List.finRange GRID_WIDTH).foldl
    (fun acc x =>
      { acc with
        grid := setCell acc.grid 0 x 0
        gridColors := setCell acc.gridColors 0 x (fun _ => 0) })
    s

/-- The outer loop of `clearLines`. `n` is the loop variable plus one
(`y = n - 1`), so the loop ends at `n = 0`; after a full row is removed the
source does `y++` and then `y--`, so `n` stays. `none` when the fuel is used
up. -/
def clearLinesLoop : Nat → (n : Nat) → n ≤ GRID_HEIGHT → TetrisGame → Int →
    Option (Int × TetrisGame)
  | 0, _, _, _, _ => none
  | _ + 1, 0, _, s, clearedCount => some (clearedCount, s)
  | fuel + 1, y + 1, h, s, clearedCount =>
      if s.fullLine ⟨y, by omega⟩ then
        clearLinesLoop fuel (y + 1) h (clearTopRow (shiftRows s y (by omega))) (clearedCount + 1)
      else
        clearLinesLoop fuel y (by omega) s clearedCount

/-- Fuel for the outer loop of `clearLines`: at most `GRID_HEIGHT` removals
and `GRID_HEIGHT` steps upward, and the final test. -/
def clearLinesFuel : Nat := 2 * GRID_HEIGHT + 1

/-- `TetrisGame::clearLines`: the returned count and the state after it. -/
def clearLines (s : TetrisGame) : Option (Int × TetrisGame) :=
  clearLinesLoop clearLinesFuel GRID_HEIGHT (le_refl _) s 0

/-- `TetrisGame::updateScore`, with the `int` arithmetic carried out over the
integers (no overflow). The lookup `SCORE_VALUES[clearedLines - 1]` is out of
range for `clearedLines > 4`. -/
def updateScore (s : TetrisGame) (clearedLines : Int) : Option TetrisGame :=
  if clearedLines > 0 then
    match SCORE_VALUES[(clearedLines - 1).toNat]? with
    | none => none
    | some v =>
        let s1 : TetrisGame :=
          { s with
            linesCleared := s.linesCleared + clearedLines
            score := s.score + v * s.level }
        let newLevel := Int.tdiv s1.linesCleared 10 + 1
        if newLevel > s1.level then
          some { s1 with
            level := newLevel
            fallSpeed := s1.baseFallSpeed / (1 + ((newLevel - 1 : Int) : Rat) * (1 / 10)) }
        else some s1
  else some s

/-- `TetrisGame::updateScore` with the width of `int`: each `int` result
(`linesCleared += clearedLines`, `SCORE_VALUES[..] * level`, `score += ..`,
`linesCleared / 10 + 1`, `level - 1`) is reduced to 32 bits. -/
def updateScore32 (s : TetrisGame) (clearedLines : Int) : Option TetrisGame :=
  if clearedLines > 0 then
    match SCORE_VALUES[(clearedLines - 1).toNat]? with
    | none => none
    | some v =>
        let s1 : TetrisGame :=
          { s with
            linesCleared := wrapInt32 (s.linesCleared + clearedLines)
            score := wrapInt32 (s.score + wrapInt32 (v * s.level)) }
        let newLevel := wrapInt32 (Int.tdiv s1.linesCleared 10 + 1)
        if newLevel > s1.level then
          some { s1 with
            level := newLevel
            fallSpeed :=
              s1.baseFallSpeed / (1 + ((wrapInt32 (newLevel - 1) : Int) : Rat) * (1 / 10)) }
        else some s1
  else some s

/-- `TetrisGame::placePiece`. -/
def placePiece (s : TetrisGame) (r : Fin 7) : Option TetrisGame :=
  match mergePiece s with
  | none => none
  | some s1 =>
    match clearLines s1 with
    | none => none
    | some (clearedLines, s2) =>
      match updateScore s2 clearedLines with
      | none => none
      | some s3 => some (spawnNewPiece s3 r)

/-- The rotation loop of `rotatePiece`: `rotated.shape[x][3-y] =
currentPiece.shape[y][x]` over all cells, writing into the copy. -/
def rotateShape (cur : Tetromino) : Tetromino :=
  matrixCells.foldl
    (fun rotated c =>
      { rotated with
        shape := fun i j =>
          if i = c.2 ∧ j = (⟨3 - c.1.val, by omega⟩ : Fin 4) then cur.shape c.1 c.2
          else rotated.shape i j })
    cur

/-- `int kicks[][2]` of `rotatePiece`. -/
def kicks : List (Int × Int) := [(-1, 0), (1, 0), (0, -1), (-1, -1), (1, -1)]

/-- The loop over `kicks` in `rotatePiece`. -/
def tryKicks (s : TetrisGame) (rotated : Tetromino) : List (Int × Int) → TetrisGame
  | [] => s
  | k :: ks =>
      if !s.checkCollision rotated k.1 k.2 then
        { s with currentPiece := { rotated with x := rotated.x + k.1, y := rotated.y + k.2 } }
      else tryKicks s rotated ks

/-- `TetrisGame::rotatePiece`. -/
def rotatePiece (s : TetrisGame) : TetrisGame :=
  let rotated := rotateShape s.currentPiece
  if !s.checkCollision rotated 0 0 then { s with currentPiece := rotated }
  else tryKicks s rotated kicks

/-- `TetrisGame::update`, with `r` the value `shapeDist(rng)` gives if a piece
is spawned. -/
def update (s : TetrisGame) (currentTime : Rat) (r : Fin 7) : Option TetrisGame :=
  if s.gameOver || s.gamePaused || s.showHelp then some s
  else if currentTime - s.lastFallTime ≥ s.fallSpeed then
    if !s.checkCollision s.currentPiece 0 1 then
      some { s with
        currentPiece := { s.currentPiece with y := s.currentPiece.y + 1 }
        lastFallTime := currentTime }
    else
      (placePiece s r).map fun s1 => { s1 with lastFallTime := currentTime }
  else some s

/-- `TetrisGame::restartGame`, with `r1`, `r2` the two values drawn. -/
def restartGame (s : TetrisGame) (r1 r2 : Fin 7) : TetrisGame :=
  spawnNewPiece
    { s with
      grid := fun _ _ => 0
      gridColors := fun _ _ _ => 0
      gameOver := false
      gamePaused := false
      showHelp := false
      score := 0
      level := 1
      linesCleared := 0
      fallSpeed := s.baseFallSpeed
      nextPiece := s.nextPiece.setType r1 }
    r2

/-- The engine part of the constructor `TetrisGame()`. -/
def construct (r1 r2 : Fin 7) : TetrisGame :=
  spawnNewPiece
    { grid := fun _ _ => 0
      gridColors := fun _ _ _ => 0
      currentPiece := Tetromino.zero
      nextPiece := Tetromino.zero.setType r1
      lastFallTime := 0
      fallSpeed := 1
      baseFallSpeed := 1
      gameOver := false
      gamePaused := false
      showHelp := false
      score := 0
      level := 1
      linesCleared := 0 }
    r2

/-- The hard-drop loop `while (!checkCollision(currentPiece, 0, 1))
currentPiece.y++;`. `none` when the fuel is used up. -/
def hardDropLoop : Nat → TetrisGame → Option TetrisGame
  | 0, _ => none
  | fuel + 1, s =>
      if !s.checkCollision s.currentPiece 0 1 then
        hardDropLoop fuel
          { s with currentPiece := { s.currentPiece with y := s.currentPiece.y + 1 } }
      else some s

/-- The move-left command of `handleInput`:
`if (!checkCollision(currentPiece, -1, 0)) currentPiece.x--;`. -/
def moveLeft (s : TetrisGame) : TetrisGame :=
  if !s.checkCollision s.currentPiece (-1) 0 then
    { s with currentPiece := { s.currentPiece with x := s.currentPiece.x - 1 } }
  else s

/-- The move-right command of `handleInput`:
`if (!checkCollision(currentPiece, 1, 0)) currentPiece.x++;`. -/
def moveRight (s : TetrisGame) : TetrisGame :=
  if !s.checkCollision s.currentPiece 1 0 then
    { s with currentPiece := { s.currentPiece with x := s.currentPiece.x + 1 } }
  else s

/-- The soft-drop command of `handleInput`:
`if (!checkCollision(currentPiece, 0, 1)) currentPiece.y++;`. -/
def softDrop (s : TetrisGame) : TetrisGame :=
  if !s.checkCollision s.currentPiece 0 1 then
    { s with currentPiece := { s.currentPiece with y := s.currentPiece.y + 1 } }
  else s

/-- The movement part of `handleInput`, after the mode gate
`if (gameOver || gamePaused) return;`: the five key tests in source order. -/
def handleMovement (s : TetrisGame) (inp : Input) (fuel : Nat) : Option TetrisGame :=
  let s1 : TetrisGame := if inp.keyLeft || inp.keyA then s.moveLeft else s
  let s2 : TetrisGame := if inp.keyRight || inp.keyD then s1.moveRight else s1
  let s3 : TetrisGame := if inp.keyDown || inp.keyS then s2.softDrop else s2
  let s4 : Option TetrisGame := if inp.keySpace then hardDropLoop fuel s3 else some s3
  s4.map fun s5 => if inp.keyUp || inp.keyW then rotatePiece s5 else s5

/-- The pause key of `handleInput`:
`if (isKeyPressed(GLFW_KEY_P)) gamePaused = !gamePaused;`. -/
def pauseKey (s : TetrisGame) (inp : Input) : TetrisGame :=
  if inp.keyP then { s with gamePaused := !s.gamePaused } else s

/-- The restart key of `handleInput`:
`if (isKeyPressed(GLFW_KEY_R)) restartGame();` (no `return`). -/
def restartKey (s : TetrisGame) (inp : Input) (r1 r2 : Fin 7) : TetrisGame :=
  if inp.keyR then restartGame s r1 r2 else s

/-- The mode gate `if (gameOver || gamePaused) return;` of `handleInput` and
the movement keys behind it. -/
def gatedMovement (s : TetrisGame) (inp : Input) (fuel : Nat) : Option TetrisGame :=
  if s.gameOver || s.gamePaused then some s else handleMovement s inp fuel

/-- The key part of `handleInput`, after `if (showHelp) return;`: the pause
key, the restart key, the mode gate and the movement keys, in source order. -/
def handleKeys (s : TetrisGame) (inp : Input) (r1 r2 : Fin 7) (fuel : Nat) :
    Option TetrisGame :=
  gatedMovement (restartKey (pauseKey s inp) inp r1 r2) inp fuel

/-- `TetrisGame::handleInput` after `updateInput`. `r1`, `r2` are the values
drawn if the frame restarts the game, `fuel` bounds the hard-drop loop. -/
def handleInput (s : TetrisGame) (inp : Input) (r1 r2 : Fin 7) (fuel : Nat) :
    Option TetrisGame :=
  if inp.mouseClicked && inp.restartButtonHovered then some (restartGame s r1 r2)
  else if inp.mouseClicked && inp.helpButtonHovered then
    some { s with showHelp := !s.showHelp }
  else if inp.mouseClicked && (s.showHelp && inp.closeHelpButtonArea) then
    some { s with showHelp := false }
  else if s.showHelp then some s
  else handleKeys s inp r1 r2 fuel

end TetrisGame

/-- The states a run of the program can be in: the constructed game, and
whatever a frame of input handling or a gravity update makes of such a state
(the main loop calls `handleInput` and `update` in turn; a restart is an input
frame, a placement happens inside an update). The draws of the random source,
the times, the inputs and their order are arbitrary. -/
inductive Reachable : TetrisGame → Prop
  | construct (r1 r2 : Fin 7) : Reachable (TetrisGame.construct r1 r2)
  | input (s s1 : TetrisGame) (inp : Input) (r1 r2 : Fin 7) (fuel : Nat) :
      Reachable s → s.handleInput inp r1 r2 fuel = some s1 → Reachable s1
  | update (s s1 : TetrisGame) (t : Rat) (r : Fin 7) :
      Reachable s → s.update t r = some s1 → Reachable s1

/-! ## Vocabulary of the statements and concrete states -/

/-- The row above `y` (row `0` for `y = 0`). -/
def predRow (y : Fin GRID_HEIGHT) : Fin GRID_HEIGHT := ⟨y.val - 1, by omega⟩

/-- One row of the playfield: occupancy and colour of each of its cells. -/
abbrev Row := Fin GRID_WIDTH → Int × Color

/-- Row `y` of the playfield of `s`. -/
def TetrisGame.rowOf (s : TetrisGame) (y : Fin GRID_HEIGHT) : Row :=
  fun x => (s.grid y x, s.gridColors y x)

/-- The rows of the playfield from top (row 0) to bottom (row 19). -/
def TetrisGame.rows (s : TetrisGame) : List Row := List.ofFn s.rowOf

/-- The all-empty row: occupancy and colours zero. -/
def emptyRow : Row := fun _ => (0, fun _ => 0)

/-- A row is full when every cell of it is occupied. -/
def rowFull (r : Row) : Bool :=
  (List.finRange GRID_WIDTH).all fun x => decide ((r x).1 ≠ 0)

/-- A playfield with rows 10 and 15 full and single blocks at (row 5, column
2), (row 12, column 3) and (row 17, column 4). -/
def exampleTwoRows : TetrisGame :=
  { TetrisGame.construct 0 0 with
    grid := fun y x =>
      if y.val = 10 ∨ y.val = 15 then 1
      else if (y.val = 5 ∧ x.val = 2) ∨ (y.val = 12 ∧ x.val = 3) ∨ (y.val = 17 ∧ x.val = 4)
      then 1 else 0 }

/-- Matrix cell `c` of piece `p` is occupied and lies on playfield cell
`(Y, X)`. -/
def covers (p : Tetromino) (c : Fin 4 × Fin 4) (Y : Fin GRID_HEIGHT) (X : Fin GRID_WIDTH) :
    Prop :=
  p.shape c.1 c.2 ≠ 0 ∧ p.y + (c.1.val : Int) = (Y.val : Int) ∧
    p.x + (c.2.val : Int) = (X.val : Int)

/-- The level invariant: `linesCleared` is not negative and `level` is
`linesCleared / 10 + 1`. -/
def LevelInv (s : TetrisGame) : Prop :=
  0 ≤ s.linesCleared ∧ s.level = Int.tdiv s.linesCleared 10 + 1

/-- `s1` differs from `s` at most in the current piece. -/
def OnlyPiece (s s1 : TetrisGame) : Prop := s1 = { s with currentPiece := s1.currentPiece }

/-- The frame in which nothing is pressed or clicked. -/
def Input.idle : Input :=
  { mouseClicked := false, restartButtonHovered := false, helpButtonHovered := false,
    closeHelpButtonArea := false, keyP := false, keyR := false, keyLeft := false,
    keyA := false, keyRight := false, keyD := false, keyDown := false, keyS := false,
    keySpace := false, keyUp := false, keyW := false }

/-- The frame in which only the space key (hard drop) fires. -/
def Input.spaceOnly : Input := { Input.idle with keySpace := true }

/-- A fresh game whose current piece is the square (variant 1) at column 5,
row 0, on an empty playfield. -/
def exampleSquare : TetrisGame := TetrisGame.construct 1 1

/-- The square lifted to row -2: its upper occupied row is above the field. -/
def exampleSquareAbove : TetrisGame :=
  { exampleSquare with currentPiece := { exampleSquare.currentPiece with y := -2 } }

/-- The line piece (variant 0), rotated once to stand upright, in column 1 of
an empty playfield. -/
def exampleLineNearWall : TetrisGame :=
  { TetrisGame.construct 0 0 with
    currentPiece :=
      { TetrisGame.rotateShape (TetrisGame.construct 0 0).currentPiece with x := -1 } }

/-- The upright line piece in column 0 of an empty playfield. -/
def exampleLineAtWall : TetrisGame :=
  { TetrisGame.construct 0 0 with
    currentPiece :=
      { TetrisGame.rotateShape (TetrisGame.construct 0 0).currentPiece with x := -2 } }

/-- A game at level 1 whose score is 7 below the largest `int`. -/
def exampleNearMaxScore : TetrisGame :=
  { exampleSquare with score := 2147483640 }

/-- A game at level 3 with 28 lines cleared and score 1000. -/
def exampleLevel3 : TetrisGame :=
  { exampleSquare with level := 3, linesCleared := 28, score := 1000 }

/-- A playfield whose row 1 is full, with the square as next piece. -/
def exampleBlocked : TetrisGame :=
  { exampleSquare with grid := fun y _ => if y.val = 1 then 1 else 0 }

/-- A game that is over. -/
def exampleOver : TetrisGame := { exampleSquare with gameOver := true }

/-- The frame in which every key fires except `R`, without a click. -/
def Input.allButRestart : Input :=
  { mouseClicked := false, restartButtonHovered := true, helpButtonHovered := true,
    closeHelpButtonArea := true, keyP := true, keyR := false, keyLeft := true,
    keyA := true, keyRight := true, keyD := true, keyDown := true, keyS := true,
    keySpace := true, keyUp := true, keyW := true }

/-- Every occupied cell of the piece lies in columns `[0, 15)` and in a row
below 20. -/
def InBounds (p : Tetromino) : Prop :=
  ∀ r c : Fin 4, p.shape r c ≠ 0 →
    0 ≤ p.x + (c.val : Int) ∧ p.x + (c.val : Int) < 15 ∧ p.y + (r.val : Int) < 20

/-- No row of the playfield is full. -/
def NoFullRow (s : TetrisGame) : Prop := ∀ r ∈ s.rows, rowFull r = false

/-- Unless the game is over, the current piece does not collide where it
is. -/
def NoOverlap (s : TetrisGame) : Prop :=
  s.gameOver = false → s.checkCollision s.currentPiece 0 0 = false

/-- The playfield and piece invariant of the running game. -/
def GameInv (s : TetrisGame) : Prop :=
  InBounds s.currentPiece ∧ NoFullRow s ∧ NoOverlap s

/-- The frame in which only the `P` key fires. -/
def Input.pOnly : Input := { Input.idle with keyP := true }

/-- The frame in which the `P` key and the left key fire together. -/
def Input.pAndLeft : Input := { Input.idle with keyP := true, keyLeft := true }

/-- The frame in which the `R` key and the left key fire together. -/
def Input.rAndLeft : Input := { Input.idle with keyR := true, keyLeft := true }

/-- The frame in which only the up key (rotate) fires. -/
def Input.upOnly : Input := { Input.idle with keyUp := true }

/-- The constructed game with the square, paused. -/
def examplePaused : TetrisGame := { exampleSquare with gamePaused := true }

/-- The line piece (variant 0) lying at column 5, row 0, over a playfield
whose columns 6, 7 and 8 are stacked up to row 3. -/
def exampleKick : TetrisGame :=
  { TetrisGame.construct 0 0 with
    grid := fun y x => if 3 ≤ y.val ∧ (x.val = 6 ∨ x.val = 7 ∨ x.val = 8) then 1 else 0 }

/-- One call of the main loop into the engine: a frame of input handling or a
gravity update. -/
inductive Frame where
  | input (inp : Input) (r1 r2 : Fin 7) (fuel : Nat)
  | tick (t : Rat) (r : Fin 7)

/-- The frame is a gravity update, or an input frame without a click on one of
the three buttons (restart, help, close help); its keys are arbitrary. -/
def Frame.noButtonClick : Frame → Prop
  | Frame.input inp _ _ _ =>
      (inp.mouseClicked &&
        (inp.restartButtonHovered || inp.helpButtonHovered || inp.closeHelpButtonArea)) = false
  | Frame.tick _ _ => True

/-- The engine call of a frame. -/
def TetrisGame.step (s : TetrisGame) : Frame → Option TetrisGame
  | Frame.input inp r1 r2 fuel => s.handleInput inp r1 r2 fuel
  | Frame.tick t r => s.update t r

/-- A sequence of frames, run in order. -/
def TetrisGame.run (s : TetrisGame) (frames : List Frame) : Option TetrisGame :=
  frames.foldlM (fun acc f => TetrisGame.step acc f) s

/-- The frame with a click on the help button. -/
def Input.helpClick : Input :=
  { Input.idle with mouseClicked := true, helpButtonHovered := true }

/-- The frame with a click on the close-help button, the space and left keys
firing with it. -/
def Input.closeClick : Input :=
  { Input.idle with
    mouseClicked := true, closeHelpButtonArea := true, keySpace := true, keyLeft := true }

/-- The speed invariant: the base interval is 1, the level is at least 1 and
the fall interval is `10 / (level + 9)`. -/
def SpeedInv (s : TetrisGame) : Prop :=
  s.baseFallSpeed = 1 ∧ 1 ≤ s.level ∧ s.fallSpeed = 10 / ((s.level : Rat) + 9)

/-- The termination measure of the outer loop of `clearLines` at loop variable
`n - 1`: the number of full rows among rows `0 .. n-1`, plus `n`. -/
def clearMeasure (n : Nat) (s : TetrisGame) : Nat :=
  (s.rows.take n).countP rowFull + n

/-- The number of occupied cells of a row. -/
def rowCount (r : Row) : Nat :=
  (List.finRange GRID_WIDTH).countP fun x => decide ((r x).1 ≠ 0)

/-- The number of occupied cells of the playfield. -/
def occupiedCount (s : TetrisGame) : Nat := (s.rows.map rowCount).sum

/-- The constructed game after a hard drop: the square rests at row 17. -/
def exampleDropped : TetrisGame :=
  { exampleSquare with currentPiece := { exampleSquare.currentPiece with y := 17 } }

/-- Cell-by-cell and field-by-field comparison of two pieces. -/
def Tetromino.same (p q : Tetromino) : Bool :=
  ((List.finRange 4).all fun r =>
      (List.finRange 4).all fun c => decide (p.shape r c = q.shape r c)) &&
    ((List.finRange 3).all fun i => decide (p.color i = q.color i)) &&
    decide (p.x = q.x) && decide (p.y = q.y) && decide (p.type = q.type)

/-- Cell-by-cell and field-by-field comparison of two states. -/
def TetrisGame.same (a b : TetrisGame) : Bool :=
  ((List.finRange GRID_HEIGHT).all fun y =>
      (List.finRange GRID_WIDTH).all fun x =>
        decide (a.grid y x = b.grid y x) &&
          (List.finRange 3).all fun i => decide (a.gridColors y x i = b.gridColors y x i)) &&
    a.currentPiece.same b.currentPiece && a.nextPiece.same b.nextPiece &&
    decide (a.lastFallTime = b.lastFallTime) && decide (a.fallSpeed = b.fallSpeed) &&
    decide (a.baseFallSpeed = b.baseFallSpeed) && decide (a.gameOver = b.gameOver) &&
    decide (a.gamePaused = b.gamePaused) && decide (a.showHelp = b.showHelp) &&
    decide (a.score = b.score) && decide (a.level = b.level) &&
    decide (a.linesCleared = b.linesCleared)

/-- The input frames that turn the line piece upright, move it from the spawn
column to column `c` and hard-drop it there: one move per frame, the rotation
in the first frame (after its move), the drop in the last (after its move). -/
def dropFrames (c : Nat) : List Frame :=
  let m : Nat := if c < 7 then 7 - c else c - 7
  let mv : Input :=
    if c < 7 then { Input.idle with keyLeft := true } else { Input.idle with keyRight := true }
  let first : Input := if m = 0 then Input.upOnly else { mv with keyUp := true }
  let last : Input := if m ≤ 1 then Input.spaceOnly else { mv with keySpace := true }
  Frame.input first 0 0 30 ::
    ((List.replicate (m - 2) (Frame.input mv 0 0 30)) ++ [Frame.input last 0 0 30])

/-- The frames of the `k`-th line piece of the stacking game (counted from 0):
pieces 0 .. 41 go upright into columns 0 .. 13, three layers of four rows,
the pieces after them into column 14; the update at time `k + 1` places the
piece. Every draw is 0, the line piece. -/
def pieceFrames (k : Nat) : List Frame :=
  dropFrames (if k < 42 then k % 14 else 14) ++ [Frame.tick ((k : Rat) + 1) 0]

/-- The frames of pieces `a .. b - 1` of the stacking game. -/
def stackFrames (a b : Nat) : List Frame :=
  (List.range (b - a)).flatMap fun i => pieceFrames (a + i)

/-- The stacking game after `k` placements, `k <= 42`: the occupied cells are
the finished layers and the first columns of the layer in progress, in
columns 0 .. 13, all of the line piece's colour. No line has been cleared. -/
def exampleStack (k : Nat) : TetrisGame :=
  let occupied : Fin GRID_HEIGHT → Fin GRID_WIDTH → Bool := fun y x =>
    decide (x.val < 14) &&
      (decide (20 ≤ y.val + 4 * (k / 14)) ||
        (decide (16 ≤ y.val + 4 * (k / 14)) && decide (x.val < k % 14)))
  { TetrisGame.construct 0 0 with
    grid := fun y x => if occupied y x then 1 else 0
    gridColors := fun y x => if occupied y x then TETROMINO_COLORS 0 else fun _ => 0
    lastFallTime := (k : Rat) }

/-- The stacking game after 42 placements and the hard drop of the next line
piece into column 14: the piece rests upright in rows 16 .. 19, and rows
8 .. 19 are occupied in columns 0 .. 13. -/
def exampleResting : TetrisGame :=
  { exampleStack 42 with
    currentPiece :=
      { (exampleStack 42).currentPiece with
        shape := fun _ c => if c.val = 2 then 1 else 0
        x := 12
        y := 16 } }

/-- The stacking game after 44 placements: the last two have cleared four rows
each. -/
def exampleEightLines : TetrisGame :=
  ((exampleStack 42).run (stackFrames 42 44)).getD (exampleStack 42)

/-- The stacking game after 45 placements: the last one has cleared rows
16 .. 19, the third clear of four rows. -/
def exampleLevelUp : TetrisGame :=
  (exampleEightLines.run (stackFrames 44 45)).getD exampleEightLines

/-! ## Collision -/

theorem gridAt_ne_zero_iff (g : Grid) (y x : Int) :
    gridAt g y x ≠ 0 ↔
      ∃ (R : Fin GRID_HEIGHT) (C : Fin GRID_WIDTH),
        (R.val : Int) = y ∧ (C.val : Int) = x ∧ g R C ≠ 0 := by
  unfold gridAt toRow toCol
  constructor
  · intro h
    split at h
    · next r c hr hc =>
      split_ifs at hr hc with h1 h2
      simp only [Option.some.injEq] at hr hc
      subst hr; subst hc
      exact ⟨_, _, Int.toNat_of_nonneg h1.1, Int.toNat_of_nonneg h2.1, h⟩
    · exact absurd rfl h
  · rintro ⟨R, C, rfl, rfl, h⟩
    have hR : (0 : Int) ≤ (R.val : Int) ∧ (R.val : Int) < GRID_HEIGHT := by
      have := R.isLt; omega
    have hC : (0 : Int) ≤ (C.val : Int) ∧ (C.val : Int) < GRID_WIDTH := by
      have := C.isLt; omega
    simp only [hR, hC, and_self, dite_true, Int.toNat_ofNat, Fin.eta]
    exact h

/-- The collision test as a statement about the occupied matrix cells. -/
theorem checkCollision_eq_true_iff (s : TetrisGame) (piece : Tetromino) (dx dy : Int) :
    s.checkCollision piece dx dy = true ↔
      ∃ r c : Fin 4, piece.shape r c ≠ 0 ∧
        (piece.x + (c.val : Int) + dx < 0 ∨ piece.x + (c.val : Int) + dx ≥ 15 ∨
          piece.y + (r.val : Int) + dy ≥ 20 ∨
          (piece.y + (r.val : Int) + dy ≥ 0 ∧
            gridAt s.grid (piece.y + (r.val : Int) + dy) (piece.x + (c.val : Int) + dx) ≠ 0)) := by
  simp only [TetrisGame.checkCollision, List.any_eq_true, List.mem_finRange, true_and,
    Bool.and_eq_true, Bool.or_eq_true, decide_eq_true_eq]
  constructor
  · rintro ⟨r, c, hocc, h⟩
    refine ⟨r, c, hocc, ?_⟩
    rcases h with ((h | h) | h) | h
    · exact Or.inl h
    · exact Or.inr (Or.inl h)
    · exact Or.inr (Or.inr (Or.inl h))
    · exact Or.inr (Or.inr (Or.inr h))
  · rintro ⟨r, c, hocc, h⟩
    refine ⟨r, c, hocc, ?_⟩
    rcases h with h | h | h | h
    · exact Or.inl (Or.inl (Or.inl h))
    · exact Or.inl (Or.inl (Or.inr h))
    · exact Or.inl (Or.inr h)
    · exact Or.inr h

/-- C1. `checkCollision(piece, dx, dy)` is true exactly when some occupied
matrix cell `(r, c)` has candidate column `x+c+dx` below 0 or at least 15, or
candidate row `y+r+dy` at least 20, or a candidate row that is at least 0
together with an occupied playfield cell at that row and column. A piece all
of whose occupied cells have a negative candidate row and a column inside the
field does not collide, whatever the playfield holds. -/
theorem C1_checkCollision_spec (s : TetrisGame) (piece : Tetromino) (dx dy : Int) :
    (s.checkCollision piece dx dy = true ↔
      ∃ r c : Fin 4, piece.shape r c ≠ 0 ∧
        (piece.x + (c.val : Int) + dx < 0 ∨ piece.x + (c.val : Int) + dx ≥ 15 ∨
          piece.y + (r.val : Int) + dy ≥ 20 ∨
          (piece.y + (r.val : Int) + dy ≥ 0 ∧
            ∃ (R : Fin GRID_HEIGHT) (C : Fin GRID_WIDTH),
              (R.val : Int) = piece.y + (r.val : Int) + dy ∧
              (C.val : Int) = piece.x + (c.val : Int) + dx ∧ s.grid R C ≠ 0))) ∧
    ((∀ r c : Fin 4, piece.shape r c ≠ 0 →
        piece.y + (r.val : Int) + dy < 0 ∧
          0 ≤ piece.x + (c.val : Int) + dx ∧ piece.x + (c.val : Int) + dx < 15) →
      s.checkCollision piece dx dy = false) := by
  have key := checkCollision_eq_true_iff s piece dx dy
  simp only [gridAt_ne_zero_iff] at key
  refine ⟨key, fun hneg => ?_⟩
  cases hcc : s.checkCollision piece dx dy with
  | false => rfl
  | true =>
    obtain ⟨r, c, hocc, h⟩ := key.mp hcc
    obtain ⟨h1, h2, h3⟩ := hneg r c hocc
    rcases h with h | h | h | ⟨h, _⟩ <;> omega

/-! ## Line clearing -/

theorem foldl_copyRow (l : List (Fin GRID_WIDTH)) (s : TetrisGame)
    (m p : Fin GRID_HEIGHT) (hpm : p ≠ m) :
    l.foldl
        (fun acc x =>
          { acc with
            grid := setCell acc.grid m x (acc.grid p x)
            gridColors := setCell acc.gridColors m x (acc.gridColors p x) })
        s =
      { s with
        grid := fun y x => if y = m ∧ x ∈ l then s.grid p x else s.grid y x
        gridColors := fun y x =>
          if y = m ∧ x ∈ l then s.gridColors p x else s.gridColors y x } := by
  induction l generalizing s with
  | nil => simp
  | cons a l ih =>
    rw [List.foldl_cons, ih]
    congr 1
    · funext y x
      simp only [setCell, List.mem_cons]
      by_cases hy : y = m <;> by_cases hx : x = a <;> by_cases hl : x ∈ l <;>
        simp [hy, hx, hl, hpm]
    · funext y x
      simp only [setCell, List.mem_cons]
      by_cases hy : y = m <;> by_cases hx : x = a <;> by_cases hl : x ∈ l <;>
        simp [hy, hx, hl, hpm]

theorem copyRowDown_eq (s : TetrisGame) (m p : Fin GRID_HEIGHT) (hpm : p ≠ m) :
    s.copyRowDown m p =
      { s with
        grid := fun y x => if y = m then s.grid p x else s.grid y x
        gridColors := fun y x => if y = m then s.gridColors p x else s.gridColors y x } := by
  unfold TetrisGame.copyRowDown
  rw [foldl_copyRow _ _ _ _ hpm]
  simp [List.mem_finRange]

theorem clearTopRow_eq (s : TetrisGame) :
    s.clearTopRow =
      { s with
        grid := fun y x => if y = 0 then 0 else s.grid y x
        gridColors := fun y x => if y = 0 then (fun _ => 0) else s.gridColors y x } := by
  have key : ∀ (l : List (Fin GRID_WIDTH)) (t : TetrisGame),
      l.foldl
          (fun acc x =>
            { acc with
              grid := setCell acc.grid 0 x 0
              gridColors := setCell acc.gridColors 0 x (fun _ => 0) })
          t =
        { t with
          grid := fun y x => if y = 0 ∧ x ∈ l then 0 else t.grid y x
          gridColors := fun y x =>
            if y = 0 ∧ x ∈ l then (fun _ => 0) else t.gridColors y x } := by
    intro l
    induction l with
    | nil => intro t; simp
    | cons a l ih =>
      intro t
      rw [List.foldl_cons, ih]
      congr 1
      · funext y x
        simp only [setCell, List.mem_cons]
        by_cases hy : y = 0 <;> by_cases hx : x = a <;> by_cases hl : x ∈ l <;>
          simp [hy, hx, hl]
      · funext y x
        simp only [setCell, List.mem_cons]
        by_cases hy : y = 0 <;> by_cases hx : x = a <;> by_cases hl : x ∈ l <;>
          simp [hy, hx, hl]
  unfold TetrisGame.clearTopRow
  rw [key]
  simp [List.mem_finRange]

theorem shiftRows_eq (n : Nat) (h : n < GRID_HEIGHT) (s : TetrisGame) :
    s.shiftRows n h =
      { s with
        grid := fun y x =>
          if 0 < y.val ∧ y.val ≤ n then s.grid (predRow y) x else s.grid y x
        gridColors := fun y x =>
          if 0 < y.val ∧ y.val ≤ n then s.gridColors (predRow y) x else s.gridColors y x } := by
  induction n generalizing s with
  | zero =>
    unfold TetrisGame.shiftRows
    have h0 : ∀ y : Fin GRID_HEIGHT, ¬ (0 < y.val ∧ y.val ≤ 0) := fun y hy => by omega
    simp only [h0, if_false]
  | succ m ih =>
    unfold TetrisGame.shiftRows
    have hne : (⟨m, by omega⟩ : Fin GRID_HEIGHT) ≠ ⟨m + 1, h⟩ := by
      intro hh
      have := congrArg Fin.val hh
      simp at this
    rw [ih, copyRowDown_eq _ _ _ hne]
    congr 1
    · funext y x
      by_cases h1 : 0 < y.val ∧ y.val ≤ m
      · have h2 : 0 < y.val ∧ y.val ≤ m + 1 := ⟨h1.1, by omega⟩
        have h3 : predRow y ≠ ⟨m + 1, h⟩ := by
          intro hh
          have := congrArg Fin.val hh
          simp [predRow] at this
          omega
        simp [h1, h2, h3]
      · by_cases h4 : y = ⟨m + 1, h⟩
        · subst h4
          simp [predRow]
        · have h5 : ¬ (0 < y.val ∧ y.val ≤ m + 1) := by
            intro hh
            apply h4
            apply Fin.ext
            simp only
            omega
          simp [h1, h4, h5]
    · funext y x
      by_cases h1 : 0 < y.val ∧ y.val ≤ m
      · have h2 : 0 < y.val ∧ y.val ≤ m + 1 := ⟨h1.1, by omega⟩
        have h3 : predRow y ≠ ⟨m + 1, h⟩ := by
          intro hh
          have := congrArg Fin.val hh
          simp [predRow] at this
          omega
        simp [h1, h2, h3]
      · by_cases h4 : y = ⟨m + 1, h⟩
        · subst h4
          simp [predRow]
        · have h5 : ¬ (0 < y.val ∧ y.val ≤ m + 1) := by
            intro hh
            apply h4
            apply Fin.ext
            simp only
            omega
          simp [h1, h4, h5]

/-- Removing row `n`: the shift of the rows above it and the emptied top row. -/
theorem removeRow_eq (n : Nat) (h : n < GRID_HEIGHT) (s : TetrisGame) :
    (s.shiftRows n h).clearTopRow =
      { s with
        grid := fun y x =>
          if y.val = 0 then 0
          else if y.val ≤ n then s.grid (predRow y) x else s.grid y x
        gridColors := fun y x =>
          if y.val = 0 then (fun _ => 0)
          else if y.val ≤ n then s.gridColors (predRow y) x else s.gridColors y x } := by
  rw [clearTopRow_eq, shiftRows_eq]
  congr 1
  · funext y x
    by_cases h0 : y = 0
    · subst h0; simp
    · have h1 : y.val ≠ 0 := fun hh => h0 (Fin.ext hh)
      have h2 : 0 < y.val := Nat.pos_of_ne_zero h1
      simp [h0, h1, h2]
  · funext y x
    by_cases h0 : y = 0
    · subst h0; simp
    · have h1 : y.val ≠ 0 := fun hh => h0 (Fin.ext hh)
      have h2 : 0 < y.val := Nat.pos_of_ne_zero h1
      simp [h0, h1, h2]

theorem fullLine_eq_rowFull (s : TetrisGame) (y : Fin GRID_HEIGHT) :
    s.fullLine y = rowFull (s.rowOf y) := rfl

theorem rowFull_emptyRow : rowFull emptyRow = false := by decide

theorem rows_length (s : TetrisGame) : s.rows.length = GRID_HEIGHT :=
  List.length_ofFn _

theorem rows_getElem (s : TetrisGame) (i : Nat) (h : i < s.rows.length) :
    s.rows[i] = s.rowOf ⟨i, (rows_length s) ▸ h⟩ :=
  List.getElem_ofFn _ _ _

theorem rowOf_removeRow (n : Nat) (h : n < GRID_HEIGHT) (s : TetrisGame)
    (y : Fin GRID_HEIGHT) :
    (s.shiftRows n h).clearTopRow.rowOf y =
      if y.val = 0 then emptyRow
      else if y.val ≤ n then s.rowOf (predRow y) else s.rowOf y := by
  rw [removeRow_eq]
  funext x
  simp only [TetrisGame.rowOf]
  by_cases h0 : y.val = 0
  · simp [h0, emptyRow]
  · by_cases h1 : y.val ≤ n <;> simp [h0, h1, TetrisGame.rowOf]

theorem rows_removeRow_take (n : Nat) (h : n < GRID_HEIGHT) (s : TetrisGame) :
    (s.shiftRows n h).clearTopRow.rows.take (n + 1) = emptyRow :: s.rows.take n := by
  apply List.ext_getElem
  · simp only [List.length_take, rows_length, List.length_cons]
    omega
  · intro i h1 h2
    simp only [List.length_take, rows_length] at h1
    rw [List.getElem_take, rows_getElem, rowOf_removeRow]
    cases i with
    | zero => simp
    | succ j =>
      have hj : j + 1 ≤ n := by omega
      simp only [Nat.add_one_ne_zero, if_false, hj, if_true, List.getElem_cons_succ]
      rw [List.getElem_take, rows_getElem]
      rfl

theorem rows_removeRow_drop (n : Nat) (h : n < GRID_HEIGHT) (s : TetrisGame) :
    (s.shiftRows n h).clearTopRow.rows.drop (n + 1) = s.rows.drop (n + 1) := by
  apply List.ext_getElem
  · simp only [List.length_drop, rows_length]
  · intro i h1 h2
    simp only [List.length_drop, rows_length] at h1
    rw [List.getElem_drop, List.getElem_drop, rows_getElem, rows_getElem, rowOf_removeRow]
    have h3 : ¬ (n + 1 + i = 0) := by omega
    have h4 : ¬ (n + 1 + i ≤ n) := by omega
    simp only [h3, h4, if_false]

theorem removeRow_frame (n : Nat) (h : n < GRID_HEIGHT) (s : TetrisGame) :
    (s.shiftRows n h).clearTopRow =
      { s with
        grid := (s.shiftRows n h).clearTopRow.grid
        gridColors := (s.shiftRows n h).clearTopRow.gridColors } := by
  rw [removeRow_eq]

/-- The outer loop of `clearLines`, started at loop variable `n - 1` with
enough fuel: it ends, adds the number of full rows among rows `0 .. n-1` to
the counter and replaces these rows by as many empty rows followed by the rows
that were not full; the rows below and all other fields are untouched. -/
theorem clearLinesLoop_spec (fuel : Nat) :
    ∀ (n : Nat) (h : n ≤ GRID_HEIGHT) (s : TetrisGame) (cnt : Int),
      (s.rows.take n).countP rowFull + n + 1 ≤ fuel →
      ∃ s1 : TetrisGame,
        TetrisGame.clearLinesLoop fuel n h s cnt =
            some (cnt + (((s.rows.take n).countP rowFull : Nat) : Int), s1) ∧
          s1.rows =
            List.replicate ((s.rows.take n).countP rowFull) emptyRow ++
              (s.rows.take n).filter (fun r => !rowFull r) ++ s.rows.drop n ∧
          s1 = { s with grid := s1.grid, gridColors := s1.gridColors } := by
  induction fuel with
  | zero => intro n h s cnt hf; omega
  | succ fuel ih =>
    intro n h s cnt hf
    cases n with
    | zero =>
      refine ⟨s, ?_, ?_, rfl⟩
      · simp [TetrisGame.clearLinesLoop]
      · simp
    | succ y =>
      have hy : y < s.rows.length := by rw [rows_length]; omega
      have htake : s.rows.take (y + 1) = s.rows.take y ++ [s.rows[y]] := by
        rw [← List.take_concat_get s.rows y hy, List.concat_eq_append]
      have hrow : s.rows[y] = s.rowOf ⟨y, by omega⟩ := rows_getElem s y hy
      unfold TetrisGame.clearLinesLoop
      by_cases hfull : s.fullLine ⟨y, by omega⟩ = true
      · have hfull1 : rowFull (s.rows[y]) = true := by
          rw [hrow, ← fullLine_eq_rowFull]; exact hfull
        have hc : (s.rows.take (y + 1)).countP rowFull =
            (s.rows.take y).countP rowFull + 1 := by
          rw [htake, List.countP_append]
          simp [List.countP_cons, hfull1]
        have htake1 := rows_removeRow_take y (by omega) s
        have hdrop1 := rows_removeRow_drop y (by omega) s
        have hc1 : (((s.shiftRows y (by omega)).clearTopRow.rows.take (y + 1)).countP rowFull) =
            (s.rows.take y).countP rowFull := by
          rw [htake1]
          simp [List.countP_cons, rowFull_emptyRow]
        obtain ⟨s1, hrun, hrows, hframe⟩ :=
          ih (y + 1) h ((s.shiftRows y (by omega)).clearTopRow) (cnt + 1) (by omega)
        refine ⟨s1, ?_, ?_, ?_⟩
        · rw [if_pos hfull, hrun, hc, hc1]
          congr 2
          push_cast
          ring
        · have hf1 : (emptyRow :: s.rows.take y).filter (fun r => !rowFull r) =
              emptyRow :: (s.rows.take y).filter (fun r => !rowFull r) := by
            rw [List.filter_cons_of_pos]
            simp [rowFull_emptyRow]
          have hf2 : [s.rows[y]].filter (fun r => !rowFull r) = [] := by
            rw [List.filter_cons_of_neg]
            · rfl
            · simp [hfull1]
          rw [hrows, hc1, hc, htake1, hdrop1, htake, List.replicate_succ', hf1,
            List.filter_append, hf2, List.append_nil, List.append_assoc, List.append_assoc,
            List.append_assoc]
          rfl
        · rw [hframe, removeRow_frame]
      · have hfull1 : rowFull (s.rows[y]) = false := by
          rw [hrow, ← fullLine_eq_rowFull]
          simpa using hfull
        have hc : (s.rows.take (y + 1)).countP rowFull = (s.rows.take y).countP rowFull := by
          rw [htake, List.countP_append]
          simp [List.countP_cons, hfull1]
        obtain ⟨s1, hrun, hrows, hframe⟩ := ih y (by omega) s cnt (by omega)
        refine ⟨s1, ?_, ?_, hframe⟩
        · rw [if_neg hfull, hrun, hc]
        · have hf2 : [s.rows[y]].filter (fun r => !rowFull r) = [s.rows[y]] := by
            rw [List.filter_cons_of_pos]
            · rfl
            · simp [hfull1]
          rw [hrows, hc, htake, List.drop_eq_getElem_cons hy, List.filter_append, hf2,
            List.append_assoc, List.append_assoc, List.append_assoc]
          rfl

/-- The effect of `clearLines`: it returns the number `k` of full
rows of the input and leaves the playfield equal to `k` all-empty rows
(occupancy and colours zero) on top of the input rows that were not full, in
their original order and unchanged; no other field changes. Hence no full row
is left, however the full rows were spread over the field (rows 10 and 15,
say, go in the same call). -/
theorem clearLines_spec (s : TetrisGame) :
    ∃ s1 : TetrisGame,
      s.clearLines = some (((s.rows.countP rowFull : Nat) : Int), s1) ∧
        s1.rows =
          List.replicate (s.rows.countP rowFull) emptyRow ++
            s.rows.filter (fun r => !rowFull r) ∧
        s1 = { s with grid := s1.grid, gridColors := s1.gridColors } ∧
        ∀ r ∈ s1.rows, rowFull r = false := by
  have hlen := rows_length s
  have hcount : s.rows.countP rowFull ≤ GRID_HEIGHT := by
    rw [← hlen]; exact List.countP_le_length _
  have htake : s.rows.take GRID_HEIGHT = s.rows := List.take_of_length_le (by omega)
  have hdrop : s.rows.drop GRID_HEIGHT = [] := List.drop_of_length_le (by omega)
  obtain ⟨s1, hrun, hrows, hframe⟩ :=
    clearLinesLoop_spec TetrisGame.clearLinesFuel GRID_HEIGHT (le_refl _) s 0
      (by rw [htake]; unfold TetrisGame.clearLinesFuel; omega)
  rw [htake, hdrop, List.append_nil] at hrows
  rw [htake, zero_add] at hrun
  refine ⟨s1, hrun, hrows, hframe, ?_⟩
  intro r hr
  rw [hrows, List.mem_append] at hr
  rcases hr with hr | hr
  · rw [(List.mem_replicate.mp hr).2]; exact rowFull_emptyRow
  · have := (List.mem_filter.mp hr).2
    simpa using this

/-- C2. On every 20x15 playfield `clearLines` returns the number `k` of full
rows of the input and leaves the playfield equal to `k` all-empty rows
(occupancy and colours zero) on top of the input rows that were not full, in
their original order and unchanged; no other field changes. Hence no full row
is left, however the full rows were spread over the field (rows 10 and 15,
say, go in the same call). -/
theorem C2_clearLines_spec (s : TetrisGame) :
    ∃ s1 : TetrisGame,
      s.clearLines = some (((s.rows.countP rowFull : Nat) : Int), s1) ∧
        s1.rows =
          List.replicate (s.rows.countP rowFull) emptyRow ++
            s.rows.filter (fun r => !rowFull r) ∧
        s1 = { s with grid := s1.grid, gridColors := s1.gridColors } ∧
        ∀ r ∈ s1.rows, rowFull r = false :=
  clearLines_spec s

set_option maxRecDepth 100000 in
/-- On `exampleTwoRows` one call of `clearLines` returns 2: both full rows go,
the block above both moves down two rows, the block between them one row, the
block below them stays, and rows 10, 11 and 15 are no longer full. -/
theorem clearLines_exampleTwoRows :
    (exampleTwoRows.clearLines.map fun p => p.1) = some 2 ∧
      (exampleTwoRows.clearLines.map fun p => (p.2.grid 7 2, p.2.grid 5 2)) = some (1, 0) ∧
      (exampleTwoRows.clearLines.map fun p => (p.2.grid 13 3, p.2.grid 12 3)) = some (1, 0) ∧
      (exampleTwoRows.clearLines.map fun p => p.2.grid 17 4) = some 1 ∧
      (exampleTwoRows.clearLines.map fun p => (p.2.grid 10 0, p.2.grid 11 0, p.2.grid 15 0)) =
        some (0, 0, 0) := by
  refine ⟨by decide, by decide, by decide, by decide, by decide⟩

/-! ## Rotation -/

theorem matrixCells_eq :
    TetrisGame.matrixCells =
      [(0, 0), (0, 1), (0, 2), (0, 3), (1, 0), (1, 1), (1, 2), (1, 3),
       (2, 0), (2, 1), (2, 2), (2, 3), (3, 0), (3, 1), (3, 2), (3, 3)] := by
  decide

/-- The rotation loop in closed form: `R[i][j] = M[3-j][i]`, nothing else
changes. -/
theorem rotateShape_eq (cur : Tetromino) :
    TetrisGame.rotateShape cur =
      { cur with shape := fun i j => cur.shape (⟨3 - j.val, by omega⟩ : Fin 4) i } := by
  unfold TetrisGame.rotateShape
  rw [matrixCells_eq]
  simp only [List.foldl_cons, List.foldl_nil]
  congr 1
  funext i j
  fin_cases i <;> fin_cases j <;> simp +decide

/-- Testing a piece with offset `(dx, dy)` is testing the piece moved by that
offset. -/
theorem checkCollision_shift (s : TetrisGame) (p : Tetromino) (dx dy : Int) :
    s.checkCollision { p with x := p.x + dx, y := p.y + dy } 0 0 = s.checkCollision p dx dy := by
  have hx : ∀ a : Int, p.x + dx + a + 0 = p.x + a + dx := fun a => by ring
  have hy : ∀ a : Int, p.y + dy + a + 0 = p.y + a + dy := fun a => by ring
  simp only [TetrisGame.checkCollision, hx, hy]

theorem tryKicks_find (s : TetrisGame) (R : Tetromino) (ks : List (Int × Int)) :
    (∀ k, ks.find? (fun k => !s.checkCollision R k.1 k.2) = some k →
        s.tryKicks R ks =
          { s with currentPiece := { R with x := R.x + k.1, y := R.y + k.2 } }) ∧
      (ks.find? (fun k => !s.checkCollision R k.1 k.2) = none → s.tryKicks R ks = s) := by
  induction ks with
  | nil => simp [TetrisGame.tryKicks]
  | cons a ks ih =>
    unfold TetrisGame.tryKicks
    by_cases ha : (!s.checkCollision R a.1 a.2) = true
    · simp only [List.find?_cons, ha, if_true]
      constructor
      · intro k hk
        rw [Option.some.injEq] at hk
        subst hk
        rfl
      · intro h; cases h
    · have ha1 : (!s.checkCollision R a.1 a.2) = false := by simpa using ha
      simp only [List.find?_cons, ha1]
      simpa using ih

/-- C3. `rotatePiece` computes the rotated matrix `R` with `R[c][3-r] =
M[r][c]` (colour, position and variant copied) and commits `R` at the first
of the offsets (0,0), (-1,0), (1,0), (0,-1), (-1,-1), (1,-1) at which `R`,
placed at `(x+dx, y+dy)`, does not collide, moving the piece to that position;
if all six collide the state is returned unchanged. -/
theorem C3_rotatePiece_spec (s : TetrisGame) :
    (∀ r c : Fin 4,
        (TetrisGame.rotateShape s.currentPiece).shape c (⟨3 - r.val, by omega⟩ : Fin 4) =
          s.currentPiece.shape r c) ∧
      TetrisGame.rotateShape s.currentPiece =
        { s.currentPiece with shape := (TetrisGame.rotateShape s.currentPiece).shape } ∧
      (∀ dx dy : Int,
        List.find?
            (fun k : Int × Int =>
              !s.checkCollision
                { TetrisGame.rotateShape s.currentPiece with
                  x := s.currentPiece.x + k.1, y := s.currentPiece.y + k.2 } 0 0)
            [(0, 0), (-1, 0), (1, 0), (0, -1), (-1, -1), (1, -1)] = some (dx, dy) →
          s.rotatePiece =
            { s with
              currentPiece :=
                { TetrisGame.rotateShape s.currentPiece with
                  x := s.currentPiece.x + dx, y := s.currentPiece.y + dy } }) ∧
      ((∀ k ∈ ([(0, 0), (-1, 0), (1, 0), (0, -1), (-1, -1), (1, -1)] : List (Int × Int)),
          s.checkCollision
            { TetrisGame.rotateShape s.currentPiece with
              x := s.currentPiece.x + k.1, y := s.currentPiece.y + k.2 } 0 0 = true) →
        s.rotatePiece = s) := by
  have hx : (TetrisGame.rotateShape s.currentPiece).x = s.currentPiece.x := by
    rw [rotateShape_eq]
  have hy : (TetrisGame.rotateShape s.currentPiece).y = s.currentPiece.y := by
    rw [rotateShape_eq]
  refine ⟨?_, ?_, ?_, ?_⟩
  · intro r c
    rw [rotateShape_eq]
    have h3 : (⟨3 - (3 - r.val), by omega⟩ : Fin 4) = r := by
      apply Fin.ext
      have := r.isLt
      simp only
      omega
    simp only [h3]
  · rw [rotateShape_eq]
  · intro dx dy hfind
    simp only [← hx, ← hy, checkCollision_shift] at hfind
    unfold TetrisGame.rotatePiece
    rw [List.find?_cons] at hfind
    by_cases h0 : (!s.checkCollision (TetrisGame.rotateShape s.currentPiece) 0 0) = true
    · simp only [h0] at hfind
      rw [Option.some.injEq, Prod.mk.injEq] at hfind
      simp only [h0, if_true, ← hfind.1, ← hfind.2, add_zero, ← hx, ← hy]
    · have h1 : (!s.checkCollision (TetrisGame.rotateShape s.currentPiece) 0 0) = false := by
        simpa using h0
      simp only [h1] at hfind
      simp only [h1]
      have := (tryKicks_find s (TetrisGame.rotateShape s.currentPiece) TetrisGame.kicks).1
        (dx, dy) hfind
      simp only [hx, hy] at this
      simpa using this
  · intro hall
    simp only [← hx, ← hy, checkCollision_shift] at hall
    unfold TetrisGame.rotatePiece
    have h0 := hall (0, 0) (by simp)
    simp only [h0, Bool.not_true]
    have hnone : TetrisGame.kicks.find?
        (fun k => !s.checkCollision (TetrisGame.rotateShape s.currentPiece) k.1 k.2) = none := by
      rw [List.find?_eq_none]
      intro k hk
      have := hall k (List.mem_cons_of_mem _ hk)
      simp [this]
    simpa using (tryKicks_find s _ TetrisGame.kicks).2 hnone

/-! ## Placement -/

theorem toRow_eq_some (y : Int) (h0 : 0 ≤ y) (h1 : y < GRID_HEIGHT) :
    ∃ r : Fin GRID_HEIGHT, toRow y = some r ∧ (r.val : Int) = y := by
  refine ⟨⟨y.toNat, by omega⟩, ?_, Int.toNat_of_nonneg h0⟩
  unfold toRow
  rw [dif_pos ⟨h0, h1⟩]

theorem toCol_eq_some (x : Int) (h0 : 0 ≤ x) (h1 : x < GRID_WIDTH) :
    ∃ c : Fin GRID_WIDTH, toCol x = some c ∧ (c.val : Int) = x := by
  refine ⟨⟨x.toNat, by omega⟩, ?_, Int.toNat_of_nonneg h0⟩
  unfold toCol
  rw [dif_pos ⟨h0, h1⟩]

/-- One step of the merge loop on a cell that is inside the field or above
it. -/
theorem placeCell_spec (s : TetrisGame) (c : Fin 4 × Fin 4)
    (hb : s.currentPiece.shape c.1 c.2 ≠ 0 →
      0 ≤ s.currentPiece.x + (c.2.val : Int) ∧ s.currentPiece.x + (c.2.val : Int) < 15 ∧
        s.currentPiece.y + (c.1.val : Int) < 20) :
    ∃ s1 : TetrisGame,
      s.placeCell c.1 c.2 = some s1 ∧
        s1 = { s with grid := s1.grid, gridColors := s1.gridColors } ∧
        ∀ (Y : Fin GRID_HEIGHT) (X : Fin GRID_WIDTH),
          (covers s.currentPiece c Y X →
              s1.grid Y X = 1 ∧ s1.gridColors Y X = s.currentPiece.color) ∧
            (¬ covers s.currentPiece c Y X →
              s1.grid Y X = s.grid Y X ∧ s1.gridColors Y X = s.gridColors Y X) := by
  unfold TetrisGame.placeCell
  by_cases hocc : s.currentPiece.shape c.1 c.2 ≠ 0
  · obtain ⟨hx0, hx1, hy1⟩ := hb hocc
    rw [if_pos hocc]
    by_cases hy0 : s.currentPiece.y + (c.1.val : Int) ≥ 0
    · obtain ⟨r, hr, hrv⟩ := toRow_eq_some _ hy0 (by simpa using hy1)
      obtain ⟨k, hk, hkv⟩ := toCol_eq_some _ hx0 (by simpa using hx1)
      simp only [hy0, if_true, hr, hk]
      refine ⟨_, rfl, rfl, ?_⟩
      intro Y X
      constructor
      · rintro ⟨_, h1, h2⟩
        have hY : Y = r := Fin.ext (by omega)
        have hX : X = k := Fin.ext (by omega)
        simp [setCell, hY, hX]
      · intro hn
        have hne : ¬ (Y = r ∧ X = k) := by
          rintro ⟨rfl, rfl⟩
          exact hn ⟨hocc, hrv.symm, hkv.symm⟩
        simp [setCell, hne]
    · rw [if_neg hy0]
      refine ⟨s, rfl, rfl, ?_⟩
      intro Y X
      constructor
      · rintro ⟨_, h1, _⟩
        exact absurd (by omega) hy0
      · intro _; exact ⟨rfl, rfl⟩
  · rw [if_neg hocc]
    refine ⟨s, rfl, rfl, ?_⟩
    intro Y X
    constructor
    · rintro ⟨h, _, _⟩
      exact absurd h hocc
    · intro _; exact ⟨rfl, rfl⟩

/-- The merge loop over a list of cells. -/
theorem foldlM_placeCell_spec (l : List (Fin 4 × Fin 4)) :
    ∀ (s : TetrisGame),
      (∀ c ∈ l, s.currentPiece.shape c.1 c.2 ≠ 0 →
        0 ≤ s.currentPiece.x + (c.2.val : Int) ∧ s.currentPiece.x + (c.2.val : Int) < 15 ∧
          s.currentPiece.y + (c.1.val : Int) < 20) →
      ∃ s1 : TetrisGame,
        l.foldlM (fun acc c => TetrisGame.placeCell acc c.1 c.2) s = some s1 ∧
          s1 = { s with grid := s1.grid, gridColors := s1.gridColors } ∧
          ∀ (Y : Fin GRID_HEIGHT) (X : Fin GRID_WIDTH),
            ((∃ c ∈ l, covers s.currentPiece c Y X) →
                s1.grid Y X = 1 ∧ s1.gridColors Y X = s.currentPiece.color) ∧
              ((¬ ∃ c ∈ l, covers s.currentPiece c Y X) →
                s1.grid Y X = s.grid Y X ∧ s1.gridColors Y X = s.gridColors Y X) := by
  induction l with
  | nil =>
    intro s _
    refine ⟨s, rfl, rfl, ?_⟩
    intro Y X
    constructor
    · rintro ⟨c, hc, _⟩
      cases hc
    · intro _; exact ⟨rfl, rfl⟩
  | cons a l ih =>
    intro s hb
    obtain ⟨s1, h1, hf1, hc1⟩ := placeCell_spec s a (hb a (List.mem_cons_self _ _))
    have hcur : s1.currentPiece = s.currentPiece := by rw [hf1]
    obtain ⟨s2, h2, hf2, hc2⟩ := ih s1 (by
      intro c hc
      rw [hcur]
      exact hb c (List.mem_cons_of_mem _ hc))
    refine ⟨s2, ?_, ?_, ?_⟩
    · rw [List.foldlM_cons, h1]
      exact h2
    · rw [hf2, hf1]
    · intro Y X
      rw [hcur] at hc2
      by_cases hl : ∃ c ∈ l, covers s.currentPiece c Y X
      · constructor
        · intro _; exact (hc2 Y X).1 hl
        · intro hn
          obtain ⟨c, hc, hcov⟩ := hl
          exact absurd ⟨c, List.mem_cons_of_mem _ hc, hcov⟩ hn
      · obtain ⟨e1, e2⟩ := (hc2 Y X).2 hl
        by_cases ha : covers s.currentPiece a Y X
        · constructor
          · intro _
            rw [e1, e2]
            exact (hc1 Y X).1 ha
          · intro hn
            exact absurd ⟨a, List.mem_cons_self _ _, ha⟩ hn
        · constructor
          · rintro ⟨c, hc, hcov⟩
            rcases List.mem_cons.mp hc with rfl | hc
            · exact absurd hcov ha
            · exact absurd ⟨c, hc, hcov⟩ hl
          · intro _
            rw [e1, e2]
            exact (hc1 Y X).2 ha

theorem mem_matrixCells (c : Fin 4 × Fin 4) : c ∈ TetrisGame.matrixCells := by
  obtain ⟨a, b⟩ := c
  rw [matrixCells_eq]
  fin_cases a <;> fin_cases b <;> simp

/-- C4. When every occupied cell of the current piece lies in columns
`[0, 15)` and in a row below 20, the merge step of `placePiece` succeeds and
yields a playfield in which exactly the cells covered by an occupied piece
cell (such a cell has row at least 0) are occupied with the colour of the
piece, every other cell keeps its occupancy and colour, and no other field
changes; occupied piece cells in rows above the field (row below 0) write
nothing. -/
theorem C4_mergePiece_spec (s : TetrisGame)
    (hb : ∀ r c : Fin 4, s.currentPiece.shape r c ≠ 0 →
      0 ≤ s.currentPiece.x + (c.val : Int) ∧ s.currentPiece.x + (c.val : Int) < 15 ∧
        s.currentPiece.y + (r.val : Int) < 20) :
    ∃ s1 : TetrisGame,
      s.mergePiece = some s1 ∧
        s1 = { s with grid := s1.grid, gridColors := s1.gridColors } ∧
        ∀ (Y : Fin GRID_HEIGHT) (X : Fin GRID_WIDTH),
          ((∃ r c : Fin 4, s.currentPiece.shape r c ≠ 0 ∧
                s.currentPiece.y + (r.val : Int) = (Y.val : Int) ∧
                s.currentPiece.x + (c.val : Int) = (X.val : Int)) →
              s1.grid Y X = 1 ∧ s1.gridColors Y X = s.currentPiece.color) ∧
            ((¬ ∃ r c : Fin 4, s.currentPiece.shape r c ≠ 0 ∧
                s.currentPiece.y + (r.val : Int) = (Y.val : Int) ∧
                s.currentPiece.x + (c.val : Int) = (X.val : Int)) →
              s1.grid Y X = s.grid Y X ∧ s1.gridColors Y X = s.gridColors Y X) := by
  obtain ⟨s1, h1, hf, hc⟩ :=
    foldlM_placeCell_spec TetrisGame.matrixCells s (fun c _ => hb c.1 c.2)
  refine ⟨s1, h1, hf, ?_⟩
  intro Y X
  constructor
  · rintro ⟨r, c, h⟩
    exact (hc Y X).1 ⟨(r, c), mem_matrixCells _, h⟩
  · intro hn
    apply (hc Y X).2
    rintro ⟨c, _, h⟩
    exact hn ⟨c.1, c.2, h⟩

/-! ## Scoring and level -/

/-- `updateScore` for a count in `1 .. 4`, in closed form. -/
theorem updateScore_pos (s : TetrisGame) (n : Int) (h1 : 1 ≤ n) (h4 : n ≤ 4) :
    ∃ v : Int,
      SCORE_VALUES[(n - 1).toNat]? = some v ∧
        s.updateScore n =
          some
            (if Int.tdiv (s.linesCleared + n) 10 + 1 > s.level then
              { s with
                linesCleared := s.linesCleared + n
                score := s.score + v * s.level
                level := Int.tdiv (s.linesCleared + n) 10 + 1
                fallSpeed :=
                  s.baseFallSpeed /
                    (1 + ((Int.tdiv (s.linesCleared + n) 10 + 1 - 1 : Int) : Rat) * (1 / 10)) }
            else
              { s with
                linesCleared := s.linesCleared + n
                score := s.score + v * s.level }) := by
  have hpos : n > 0 := by omega
  unfold TetrisGame.updateScore
  rw [if_pos hpos]
  have hn : n = 1 ∨ n = 2 ∨ n = 3 ∨ n = 4 := by omega
  rcases hn with rfl | rfl | rfl | rfl
  · refine ⟨40, by decide, ?_⟩
    show (match (some (40 : Int)) with | none => none | some v => _) = _
    simp only
    split <;> rfl
  · refine ⟨100, by decide, ?_⟩
    show (match (some (100 : Int)) with | none => none | some v => _) = _
    simp only
    split <;> rfl
  · refine ⟨300, by decide, ?_⟩
    show (match (some (300 : Int)) with | none => none | some v => _) = _
    simp only
    split <;> rfl
  · refine ⟨1200, by decide, ?_⟩
    show (match (some (1200 : Int)) with | none => none | some v => _) = _
    simp only
    split <;> rfl

/-- The score delta and the line count after `updateScore(n)` for `n` in
`1 .. 4` with table value `v`. -/
theorem updateScore_score_lines (s : TetrisGame) (n v : Int) (h1 : 1 ≤ n) (h4 : n ≤ 4)
    (hv : SCORE_VALUES[(n - 1).toNat]? = some v) :
    ∃ s1 : TetrisGame,
      s.updateScore n = some s1 ∧ s1.score = s.score + v * s.level ∧
        s1.linesCleared = s.linesCleared + n := by
  obtain ⟨w, hw, hrun⟩ := updateScore_pos s n h1 h4
  rw [hv, Option.some.injEq] at hw
  subst hw
  refine ⟨_, hrun, ?_, ?_⟩
  · split <;> rfl
  · split <;> rfl

/-- Over the integers, at level `L`, `updateScore(n)` for `n = 1, 2, 3, 4`
adds `40*L`, `100*L`, `300*L`, `1200*L` to the score, `L` being the level
before the call, and adds `n` to `linesCleared`; `updateScore(0)` changes
nothing. -/
theorem updateScore_exact (s : TetrisGame) :
    (∃ s1 : TetrisGame, s.updateScore 1 = some s1 ∧ s1.score = s.score + 40 * s.level ∧
        s1.linesCleared = s.linesCleared + 1) ∧
      (∃ s1 : TetrisGame, s.updateScore 2 = some s1 ∧ s1.score = s.score + 100 * s.level ∧
        s1.linesCleared = s.linesCleared + 2) ∧
      (∃ s1 : TetrisGame, s.updateScore 3 = some s1 ∧ s1.score = s.score + 300 * s.level ∧
        s1.linesCleared = s.linesCleared + 3) ∧
      (∃ s1 : TetrisGame, s.updateScore 4 = some s1 ∧ s1.score = s.score + 1200 * s.level ∧
        s1.linesCleared = s.linesCleared + 4) ∧
      s.updateScore 0 = some s :=
  ⟨updateScore_score_lines s 1 40 (by decide) (by decide) (by decide),
    updateScore_score_lines s 2 100 (by decide) (by decide) (by decide),
    updateScore_score_lines s 3 300 (by decide) (by decide) (by decide),
    updateScore_score_lines s 4 1200 (by decide) (by decide) (by decide),
    by simp [TetrisGame.updateScore]⟩

theorem updateScore_levelInv (s s1 : TetrisGame) (n : Int) (hinv : LevelInv s)
    (h : s.updateScore n = some s1) : LevelInv s1 := by
  obtain ⟨h0, hl⟩ := hinv
  unfold TetrisGame.updateScore at h
  by_cases hn : n > 0
  · rw [if_pos hn] at h
    have e1 : Int.tdiv s.linesCleared 10 = s.linesCleared / 10 :=
      Int.tdiv_eq_ediv h0 (by decide)
    have e2 : Int.tdiv (s.linesCleared + n) 10 = (s.linesCleared + n) / 10 :=
      Int.tdiv_eq_ediv (by omega) (by decide)
    split at h
    · cases h
    · simp only at h
      split at h
      · rw [Option.some.injEq] at h
        subst h
        exact ⟨by show 0 ≤ s.linesCleared + n; omega, rfl⟩
      · next hle =>
        rw [Option.some.injEq] at h
        subst h
        refine ⟨by show 0 ≤ s.linesCleared + n; omega, ?_⟩
        show s.level = Int.tdiv (s.linesCleared + n) 10 + 1
        have hle1 : ¬ (Int.tdiv (s.linesCleared + n) 10 + 1 > s.level) := hle
        rw [e2] at hle1 ⊢
        rw [e1] at hl
        omega
  · rw [if_neg hn, Option.some.injEq] at h
    subst h
    exact ⟨h0, hl⟩

/-! ## What each operation leaves alone -/

theorem spawnNewPiece_frame (s : TetrisGame) (r : Fin 7) :
    s.spawnNewPiece r =
      { s with
        currentPiece := (s.spawnNewPiece r).currentPiece
        nextPiece := (s.spawnNewPiece r).nextPiece
        gameOver := (s.spawnNewPiece r).gameOver } := by
  unfold TetrisGame.spawnNewPiece
  simp only
  split <;> rfl

theorem placeCell_frame (s s1 : TetrisGame) (y x : Fin 4) (h : s.placeCell y x = some s1) :
    s1 = { s with grid := s1.grid, gridColors := s1.gridColors } := by
  unfold TetrisGame.placeCell at h
  split at h
  · simp only at h
    split at h
    · split at h
      · rw [Option.some.injEq] at h
        subst h
        rfl
      · cases h
    · rw [Option.some.injEq] at h
      subst h
      rfl
  · rw [Option.some.injEq] at h
    subst h
    rfl

theorem foldlM_placeCell_frame (l : List (Fin 4 × Fin 4)) :
    ∀ (s s1 : TetrisGame),
      l.foldlM (fun acc c => TetrisGame.placeCell acc c.1 c.2) s = some s1 →
      s1 = { s with grid := s1.grid, gridColors := s1.gridColors } := by
  induction l with
  | nil =>
    intro s s1 h
    rw [List.foldlM_nil] at h
    cases h
    rfl
  | cons a l ih =>
    intro s s1 h
    rw [List.foldlM_cons] at h
    cases hp : s.placeCell a.1 a.2 with
    | none => rw [hp] at h; cases h
    | some s2 =>
      rw [hp] at h
      have h2 := placeCell_frame s s2 a.1 a.2 hp
      have h1 := ih s2 s1 h
      rw [h1, h2]

theorem mergePiece_frame (s s1 : TetrisGame) (h : s.mergePiece = some s1) :
    s1 = { s with grid := s1.grid, gridColors := s1.gridColors } :=
  foldlM_placeCell_frame _ s s1 h

theorem clearLines_frame (s s1 : TetrisGame) (n : Int) (h : s.clearLines = some (n, s1)) :
    s1 = { s with grid := s1.grid, gridColors := s1.gridColors } ∧
      n = ((s.rows.countP rowFull : Nat) : Int) := by
  obtain ⟨s2, h2, _, hf, _⟩ := clearLines_spec s
  rw [h2, Option.some.injEq, Prod.mk.injEq] at h
  obtain ⟨hn, hs⟩ := h
  subst hs
  exact ⟨hf, hn.symm⟩

theorem tryKicks_frame (s : TetrisGame) (R : Tetromino) (ks : List (Int × Int)) :
    s.tryKicks R ks = { s with currentPiece := (s.tryKicks R ks).currentPiece } := by
  induction ks with
  | nil => rfl
  | cons a ks ih =>
    unfold TetrisGame.tryKicks
    split
    · rfl
    · exact ih

theorem rotatePiece_frame (s : TetrisGame) :
    s.rotatePiece = { s with currentPiece := s.rotatePiece.currentPiece } := by
  unfold TetrisGame.rotatePiece
  simp only
  split
  · rfl
  · exact tryKicks_frame _ _ _

/-- The hard-drop loop changes nothing but the row of the current piece. -/
theorem hardDropLoop_frame (fuel : Nat) :
    ∀ (s s1 : TetrisGame), TetrisGame.hardDropLoop fuel s = some s1 →
      s1 = { s with currentPiece := { s.currentPiece with y := s1.currentPiece.y } } := by
  induction fuel with
  | zero => intro s s1 h; cases h
  | succ fuel ih =>
    intro s s1 h
    unfold TetrisGame.hardDropLoop at h
    split at h
    · have := ih _ s1 h
      rw [this]
    · rw [Option.some.injEq] at h
      subst h
      rfl

theorem OnlyPiece.refl (s : TetrisGame) : OnlyPiece s s := rfl

theorem OnlyPiece.trans {a b c : TetrisGame} (h1 : OnlyPiece a b) (h2 : OnlyPiece b c) :
    OnlyPiece a c := by
  unfold OnlyPiece at *
  rw [h2, h1]

theorem moveLeft_onlyPiece (s : TetrisGame) : OnlyPiece s s.moveLeft := by
  unfold OnlyPiece TetrisGame.moveLeft
  split <;> rfl

theorem moveRight_onlyPiece (s : TetrisGame) : OnlyPiece s s.moveRight := by
  unfold OnlyPiece TetrisGame.moveRight
  split <;> rfl

theorem softDrop_onlyPiece (s : TetrisGame) : OnlyPiece s s.softDrop := by
  unfold OnlyPiece TetrisGame.softDrop
  split <;> rfl

theorem rotatePiece_onlyPiece (s : TetrisGame) : OnlyPiece s s.rotatePiece :=
  rotatePiece_frame s

theorem hardDropLoop_onlyPiece (fuel : Nat) (s s1 : TetrisGame)
    (h : TetrisGame.hardDropLoop fuel s = some s1) : OnlyPiece s s1 := by
  have := hardDropLoop_frame fuel s s1 h
  unfold OnlyPiece
  rw [this]

theorem ite_onlyPiece (b : Bool) (s t : TetrisGame) (h : OnlyPiece s t) :
    OnlyPiece s (if b = true then t else s) := by
  split
  · exact h
  · exact OnlyPiece.refl s

theorem handleMovement_onlyPiece (s s1 : TetrisGame) (inp : Input) (fuel : Nat)
    (h : s.handleMovement inp fuel = some s1) : OnlyPiece s s1 := by
  unfold TetrisGame.handleMovement at h
  simp only [Option.map_eq_some'] at h
  obtain ⟨s5, h5, hrot⟩ := h
  have h1 := ite_onlyPiece (inp.keyLeft || inp.keyA) s _ (moveLeft_onlyPiece s)
  have h2 := ite_onlyPiece (inp.keyRight || inp.keyD) _ _ (moveRight_onlyPiece
    (if (inp.keyLeft || inp.keyA) = true then s.moveLeft else s))
  have h3 := ite_onlyPiece (inp.keyDown || inp.keyS) _ _ (softDrop_onlyPiece
    (if (inp.keyRight || inp.keyD) = true then
      (if (inp.keyLeft || inp.keyA) = true then s.moveLeft else s).moveRight
     else (if (inp.keyLeft || inp.keyA) = true then s.moveLeft else s)))
  have h123 := (h1.trans h2).trans h3
  have h4 : OnlyPiece s s5 := by
    split at h5
    · exact h123.trans (hardDropLoop_onlyPiece fuel _ _ h5)
    · rw [Option.some.injEq] at h5
      rw [← h5]
      exact h123
  rw [← hrot]
  exact h4.trans (ite_onlyPiece _ s5 _ (rotatePiece_onlyPiece s5))

theorem LevelInv.of_eq {s s1 : TetrisGame} (h : LevelInv s) (hl : s1.level = s.level)
    (hn : s1.linesCleared = s.linesCleared) : LevelInv s1 := by
  unfold LevelInv at *
  rw [hl, hn]
  exact h

theorem OnlyPiece.levelInv {s s1 : TetrisGame} (h : OnlyPiece s s1) (hinv : LevelInv s) :
    LevelInv s1 := by
  unfold OnlyPiece at h
  exact hinv.of_eq (by rw [h]) (by rw [h])

theorem spawnNewPiece_levelInv (s : TetrisGame) (r : Fin 7) (hinv : LevelInv s) :
    LevelInv (s.spawnNewPiece r) :=
  hinv.of_eq (by rw [spawnNewPiece_frame]) (by rw [spawnNewPiece_frame])

theorem restartGame_levelInv (s : TetrisGame) (r1 r2 : Fin 7) :
    LevelInv (s.restartGame r1 r2) := by
  unfold TetrisGame.restartGame
  apply spawnNewPiece_levelInv
  exact ⟨Int.le_refl _, rfl⟩

theorem construct_levelInv (r1 r2 : Fin 7) : LevelInv (TetrisGame.construct r1 r2) := by
  unfold TetrisGame.construct
  apply spawnNewPiece_levelInv
  exact ⟨Int.le_refl _, rfl⟩

theorem placePiece_levelInv (s s1 : TetrisGame) (r : Fin 7) (hinv : LevelInv s)
    (h : s.placePiece r = some s1) : LevelInv s1 := by
  unfold TetrisGame.placePiece at h
  cases hm : s.mergePiece with
  | none => rw [hm] at h; cases h
  | some a =>
    rw [hm] at h
    simp only at h
    cases hc : a.clearLines with
    | none => rw [hc] at h; cases h
    | some p =>
      obtain ⟨n, b⟩ := p
      rw [hc] at h
      simp only at h
      cases hu : b.updateScore n with
      | none => rw [hu] at h; cases h
      | some c =>
        rw [hu] at h
        simp only [Option.some.injEq] at h
        subst h
        apply spawnNewPiece_levelInv
        apply updateScore_levelInv b c n _ hu
        have ha := mergePiece_frame s a hm
        have hb := (clearLines_frame a b n hc).1
        exact hinv.of_eq (by rw [hb, ha]) (by rw [hb, ha])

theorem update_levelInv (s s1 : TetrisGame) (t : Rat) (r : Fin 7) (hinv : LevelInv s)
    (h : s.update t r = some s1) : LevelInv s1 := by
  unfold TetrisGame.update at h
  split at h
  · rw [Option.some.injEq] at h; subst h; exact hinv
  · split at h
    · split at h
      · rw [Option.some.injEq] at h; subst h
        exact hinv.of_eq rfl rfl
      · rw [Option.map_eq_some'] at h
        obtain ⟨a, ha, rfl⟩ := h
        exact (placePiece_levelInv s a r hinv ha).of_eq rfl rfl
    · rw [Option.some.injEq] at h; subst h; exact hinv

theorem pauseKey_levelInv (s : TetrisGame) (inp : Input) (hinv : LevelInv s) :
    LevelInv (s.pauseKey inp) := by
  unfold TetrisGame.pauseKey
  split
  · exact hinv.of_eq rfl rfl
  · exact hinv

theorem restartKey_levelInv (s : TetrisGame) (inp : Input) (r1 r2 : Fin 7)
    (hinv : LevelInv s) : LevelInv (s.restartKey inp r1 r2) := by
  unfold TetrisGame.restartKey
  split
  · exact restartGame_levelInv _ _ _
  · exact hinv

theorem gatedMovement_levelInv (s s1 : TetrisGame) (inp : Input) (fuel : Nat)
    (hinv : LevelInv s) (h : s.gatedMovement inp fuel = some s1) : LevelInv s1 := by
  unfold TetrisGame.gatedMovement at h
  split at h
  · rw [Option.some.injEq] at h
    rw [← h]
    exact hinv
  · exact (handleMovement_onlyPiece _ _ _ _ h).levelInv hinv

theorem handleKeys_levelInv (s s1 : TetrisGame) (inp : Input) (r1 r2 : Fin 7) (fuel : Nat)
    (hinv : LevelInv s) (h : s.handleKeys inp r1 r2 fuel = some s1) : LevelInv s1 :=
  gatedMovement_levelInv _ s1 inp fuel
    (restartKey_levelInv _ inp r1 r2 (pauseKey_levelInv s inp hinv)) h

theorem handleInput_levelInv (s s1 : TetrisGame) (inp : Input) (r1 r2 : Fin 7) (fuel : Nat)
    (hinv : LevelInv s) (h : s.handleInput inp r1 r2 fuel = some s1) : LevelInv s1 := by
  unfold TetrisGame.handleInput at h
  split at h
  · rw [Option.some.injEq] at h; subst h; exact restartGame_levelInv _ _ _
  · split at h
    · rw [Option.some.injEq] at h; subst h; exact hinv.of_eq rfl rfl
    · split at h
      · rw [Option.some.injEq] at h; subst h; exact hinv.of_eq rfl rfl
      · split at h
        · rw [Option.some.injEq] at h; subst h; exact hinv
        · exact handleKeys_levelInv s s1 inp r1 r2 fuel hinv h

/-- C6. In every state reachable from the constructed game by input frames
(restarts included) and gravity updates (placements included), `linesCleared`
is not negative and `level = linesCleared / 10 + 1` in integer division: the
level has its new value as soon as the placement that crosses a multiple of 10
has been scored. -/
theorem C6_level_invariant (s : TetrisGame) (h : Reachable s) :
    0 ≤ s.linesCleared ∧ s.level = Int.tdiv s.linesCleared 10 + 1 ∧
      s.level = s.linesCleared / 10 + 1 := by
  have key : LevelInv s := by
    induction h with
    | construct r1 r2 => exact construct_levelInv r1 r2
    | input s s1 inp r1 r2 fuel _ hstep ih => exact handleInput_levelInv s s1 inp r1 r2 fuel ih hstep
    | update s s1 t r _ hstep ih => exact update_levelInv s s1 t r ih hstep
  refine ⟨key.1, key.2, ?_⟩
  rw [key.2, Int.tdiv_eq_ediv key.1 (by decide)]

/-! ## Gravity clock -/

/-- C7. `update(t)` returns the state unchanged when the game is over, paused
or the help overlay is open, and when `t - lastFallTime < fallInterval`.
Otherwise (mode Playing, interval elapsed) it moves the current piece down one
row if that does not collide, else it runs `placePiece`, which is the merge,
the line clear, the scoring and the spawn of the next piece in this order; in
both cases `lastFallTime` becomes `t`. -/
theorem C7_update_spec (s : TetrisGame) (t : Rat) (r : Fin 7) :
    ((s.gameOver = true ∨ s.gamePaused = true ∨ s.showHelp = true) → s.update t r = some s) ∧
      (t - s.lastFallTime < s.fallSpeed → s.update t r = some s) ∧
      (s.gameOver = false → s.gamePaused = false → s.showHelp = false →
        t - s.lastFallTime ≥ s.fallSpeed →
        (s.checkCollision s.currentPiece 0 1 = false →
            s.update t r =
              some { s with
                currentPiece := { s.currentPiece with y := s.currentPiece.y + 1 }
                lastFallTime := t }) ∧
          (s.checkCollision s.currentPiece 0 1 = true →
            s.update t r = (s.placePiece r).map fun s1 => { s1 with lastFallTime := t })) ∧
      s.placePiece r =
        s.mergePiece.bind fun a =>
          a.clearLines.bind fun p =>
            (p.2.updateScore p.1).map fun c => c.spawnNewPiece r := by
  refine ⟨?_, ?_, ?_, ?_⟩
  · intro h
    unfold TetrisGame.update
    have : (s.gameOver || s.gamePaused || s.showHelp) = true := by
      rcases h with h | h | h <;> simp [h]
    rw [if_pos this]
  · intro h
    unfold TetrisGame.update
    split
    · rfl
    · rw [if_neg (not_le.mpr h)]
  · intro h1 h2 h3 h4
    have hmode : ¬ (s.gameOver || s.gamePaused || s.showHelp) = true := by
      simp [h1, h2, h3]
    constructor
    · intro hc
      unfold TetrisGame.update
      rw [if_neg hmode, if_pos h4]
      simp [hc]
    · intro hc
      unfold TetrisGame.update
      rw [if_neg hmode, if_pos h4]
      simp [hc]
  · unfold TetrisGame.placePiece
    cases s.mergePiece with
    | none => rfl
    | some a =>
      simp only [Option.some_bind]
      cases a.clearLines with
      | none => rfl
      | some p =>
        simp only [Option.some_bind]
        cases p.2.updateScore p.1 <;> rfl

/-! ## Spawn -/

theorem checkCollision_congr (s s1 : TetrisGame) (h : s1.grid = s.grid) (p : Tetromino)
    (dx dy : Int) : s1.checkCollision p dx dy = s.checkCollision p dx dy := by
  unfold TetrisGame.checkCollision
  rw [h]

/-- C9. `spawnNewPiece` makes the previous next piece the current piece (same
variant, matrix and colour) at column `15/2 - 2 = 5`, row 0, on an unchanged
playfield; afterwards `gameOver` is set exactly when it was set before or the
new current piece collides at its initial position; `gamePaused` and
`showHelp` never change, and a spawn that does not collide leaves `gameOver`
as it was. -/
theorem C9_spawnNewPiece_spec (s : TetrisGame) (r : Fin 7) :
    (s.spawnNewPiece r).currentPiece.type = s.nextPiece.type ∧
      (s.spawnNewPiece r).currentPiece.shape = s.nextPiece.shape ∧
      (s.spawnNewPiece r).currentPiece.color = s.nextPiece.color ∧
      (s.spawnNewPiece r).currentPiece.x = 5 ∧
      (s.spawnNewPiece r).currentPiece.y = 0 ∧
      (s.spawnNewPiece r).grid = s.grid ∧
      (s.spawnNewPiece r).gridColors = s.gridColors ∧
      ((s.spawnNewPiece r).gameOver = true ↔
        (s.gameOver = true ∨
          (s.spawnNewPiece r).checkCollision (s.spawnNewPiece r).currentPiece 0 0 = true)) ∧
      (s.spawnNewPiece r).gamePaused = s.gamePaused ∧
      (s.spawnNewPiece r).showHelp = s.showHelp ∧
      ((s.spawnNewPiece r).checkCollision (s.spawnNewPiece r).currentPiece 0 0 = false →
        (s.spawnNewPiece r).gameOver = s.gameOver) := by
  have hx : Int.tdiv ((GRID_WIDTH : Nat) : Int) 2 - 2 = 5 := by decide
  unfold TetrisGame.spawnNewPiece
  simp only [hx]
  split
  · next hc =>
    refine ⟨rfl, rfl, rfl, rfl, rfl, rfl, rfl, ?_, rfl, rfl, ?_⟩
    · simp only [true_iff]
      right
      exact hc
    · intro hn
      have : (TetrisGame.checkCollision
          { s with
            currentPiece := { s.nextPiece with x := 5, y := 0 }
            nextPiece := s.nextPiece.setType r
            gameOver := true }
          { s.nextPiece with x := 5, y := 0 } 0 0) =
          (TetrisGame.checkCollision
          { s with
            currentPiece := { s.nextPiece with x := 5, y := 0 }
            nextPiece := s.nextPiece.setType r }
          { s.nextPiece with x := 5, y := 0 } 0 0) := checkCollision_congr _ _ rfl _ _ _
      rw [this, hc] at hn
      cases hn
  · next hc =>
    refine ⟨rfl, rfl, rfl, rfl, rfl, rfl, rfl, ?_, rfl, rfl, fun _ => rfl⟩
    constructor
    · intro h; exact Or.inl h
    · rintro (h | h)
      · exact h
      · exact absurd h hc

/-! ## Game over -/

/-- With `gameOver` set, the key part of `handleInput` without the `R` key
changes at most the `gamePaused` flag. -/
theorem handleKeys_gameOver (s : TetrisGame) (inp : Input) (r1 r2 : Fin 7) (fuel : Nat)
    (hgo : s.gameOver = true) (hR : inp.keyR = false) :
    s.handleKeys inp r1 r2 fuel = some (s.pauseKey inp) ∧
      s.pauseKey inp = { s with gamePaused := (s.pauseKey inp).gamePaused } := by
  have hp : s.pauseKey inp = { s with gamePaused := (s.pauseKey inp).gamePaused } := by
    unfold TetrisGame.pauseKey
    split <;> rfl
  have hgo1 : (s.pauseKey inp).gameOver = true := by rw [hp]; exact hgo
  refine ⟨?_, hp⟩
  unfold TetrisGame.handleKeys TetrisGame.restartKey TetrisGame.gatedMovement
  simp [hR, hgo1]

/-- C10. With `gameOver` set, every input frame that triggers no restart (no
`R` key edge, no click on the restart button) returns a state in which
`gameOver` is still set and playfield, colours, current piece, next piece,
score, level and `linesCleared` are as before, whatever movement, rotation or
drop keys are pressed; every `update(t)` returns the state unchanged. -/
theorem C10_gameOver_terminal (s : TetrisGame) (hgo : s.gameOver = true) :
    (∀ (inp : Input) (r1 r2 : Fin 7) (fuel : Nat),
        inp.keyR = false → (inp.mouseClicked && inp.restartButtonHovered) = false →
        ∃ s1 : TetrisGame,
          s.handleInput inp r1 r2 fuel = some s1 ∧ s1.gameOver = true ∧
            s1.grid = s.grid ∧ s1.gridColors = s.gridColors ∧
            s1.currentPiece = s.currentPiece ∧ s1.nextPiece = s.nextPiece ∧
            s1.score = s.score ∧ s1.level = s.level ∧ s1.linesCleared = s.linesCleared) ∧
      (∀ (t : Rat) (r : Fin 7), s.update t r = some s) := by
  constructor
  · intro inp r1 r2 fuel hR hclick
    unfold TetrisGame.handleInput
    rw [if_neg (by simp [hclick])]
    split
    · exact ⟨_, rfl, hgo, rfl, rfl, rfl, rfl, rfl, rfl, rfl⟩
    · split
      · exact ⟨_, rfl, hgo, rfl, rfl, rfl, rfl, rfl, rfl, rfl⟩
      · split
        · exact ⟨_, rfl, hgo, rfl, rfl, rfl, rfl, rfl, rfl, rfl⟩
        · obtain ⟨h1, h2⟩ := handleKeys_gameOver s inp r1 r2 fuel hgo hR
          refine ⟨_, h1, ?_, ?_, ?_, ?_, ?_, ?_, ?_, ?_⟩ <;> rw [h2]
          exact hgo
  · intro t r
    unfold TetrisGame.update
    simp [hgo]

/-! ## Hard drop -/

/-- C1 at the square lifted to row -3: its cells are above the field and it
does not collide. -/
theorem C1_checkCollision_witness :
    exampleSquare.checkCollision { exampleSquare.currentPiece with y := -3 } 0 0 = false :=
  (C1_checkCollision_spec exampleSquare { exampleSquare.currentPiece with y := -3 } 0 0).2
    (by decide)

/-- C3 at the upright line in column 1: the unshifted rotation and the kick
(-1,0) collide with the left wall, the kick (1,0) is taken. -/
theorem C3_rotatePiece_witness :
    exampleLineNearWall.rotatePiece =
      { exampleLineNearWall with
        currentPiece :=
          { TetrisGame.rotateShape exampleLineNearWall.currentPiece with
            x := exampleLineNearWall.currentPiece.x + 1
            y := exampleLineNearWall.currentPiece.y + 0 } } :=
  (C3_rotatePiece_spec exampleLineNearWall).2.2.1 1 0 (by decide)

/-- The upright line in column 0: all six candidates collide and the rotation
is discarded. -/
theorem rotatePiece_exampleLineAtWall :
    (exampleLineAtWall.rotatePiece.currentPiece.x,
      exampleLineAtWall.rotatePiece.currentPiece.shape 0 2,
      exampleLineAtWall.rotatePiece.currentPiece.shape 2 0) = (-2, 1, 0) := by
  decide

/-- C4 at the square lifted to row -2: the merge succeeds, its lower row lands
in row 0 and nothing else is written. -/
theorem C4_mergePiece_witness :
    ∃ s1 : TetrisGame,
      exampleSquareAbove.mergePiece = some s1 ∧
        s1 = { exampleSquareAbove with grid := s1.grid, gridColors := s1.gridColors } ∧
        ∀ (Y : Fin GRID_HEIGHT) (X : Fin GRID_WIDTH),
          ((∃ r c : Fin 4, exampleSquareAbove.currentPiece.shape r c ≠ 0 ∧
                exampleSquareAbove.currentPiece.y + (r.val : Int) = (Y.val : Int) ∧
                exampleSquareAbove.currentPiece.x + (c.val : Int) = (X.val : Int)) →
              s1.grid Y X = 1 ∧ s1.gridColors Y X = exampleSquareAbove.currentPiece.color) ∧
            ((¬ ∃ r c : Fin 4, exampleSquareAbove.currentPiece.shape r c ≠ 0 ∧
                exampleSquareAbove.currentPiece.y + (r.val : Int) = (Y.val : Int) ∧
                exampleSquareAbove.currentPiece.x + (c.val : Int) = (X.val : Int)) →
              s1.grid Y X = exampleSquareAbove.grid Y X ∧
                s1.gridColors Y X = exampleSquareAbove.gridColors Y X) :=
  C4_mergePiece_spec exampleSquareAbove (by decide)

/-- The merge at the square lifted to row -2, evaluated: cells (0,6) and (0,7)
are set, cell (1,6) is not. -/
theorem mergePiece_exampleSquareAbove :
    (exampleSquareAbove.mergePiece.map fun s1 => (s1.grid 0 6, s1.grid 0 7, s1.grid 1 6)) =
      some (1, 1, 0) := by
  decide

/-- Over the integers, `updateScore(4)` at level 3 with 28 lines and score
1000, evaluated: score 4600, 32 lines, level 4. -/
theorem updateScore_exampleLevel3 :
    ((exampleLevel3.updateScore 4).map fun s1 => (s1.score, s1.linesCleared, s1.level)) =
      some (4600, 32, 4) := by
  decide

/-- C9 at a playfield whose row 1 is full: the spawned square collides and the
game is over. -/
theorem C9_spawnNewPiece_witness : (exampleBlocked.spawnNewPiece 0).gameOver = true :=
  (C9_spawnNewPiece_spec exampleBlocked 0).2.2.2.2.2.2.2.1.mpr (Or.inr (by decide))

/-- C10 at a game that is over, with every key but `R` fired. -/
theorem C10_gameOver_terminal_witness :
    ∃ s1 : TetrisGame,
      exampleOver.handleInput Input.allButRestart 0 0 0 = some s1 ∧ s1.gameOver = true ∧
        s1.grid = exampleOver.grid ∧ s1.gridColors = exampleOver.gridColors ∧
        s1.currentPiece = exampleOver.currentPiece ∧ s1.nextPiece = exampleOver.nextPiece ∧
        s1.score = exampleOver.score ∧ s1.level = exampleOver.level ∧
        s1.linesCleared = exampleOver.linesCleared :=
  (C10_gameOver_terminal exampleOver rfl).1 Input.allButRestart 0 0 0 rfl rfl

theorem exampleSquare_clock :
    exampleSquare.lastFallTime = 0 ∧ exampleSquare.fallSpeed = 1 := by
  unfold exampleSquare TetrisGame.construct
  rw [spawnNewPiece_frame]
  exact ⟨rfl, rfl⟩

/-- C7 at the constructed game at time 1: the interval has elapsed, the square
falls one row and `lastFallTime` becomes 1. -/
theorem C7_update_witness :
    exampleSquare.update 1 0 =
      some { exampleSquare with
        currentPiece := { exampleSquare.currentPiece with y := exampleSquare.currentPiece.y + 1 }
        lastFallTime := 1 } :=
  ((C7_update_spec exampleSquare 1 0).2.2.1 (by decide) (by decide) (by decide)
    (by rw [exampleSquare_clock.1, exampleSquare_clock.2]; norm_num)).1 (by decide)

/-- The constructed game at time 1/2: the interval has not elapsed and the
state is returned unchanged. -/
theorem update_exampleSquare_early : exampleSquare.update (1 / 2) 0 = some exampleSquare := by
  unfold TetrisGame.update
  have h : ¬ ((1 / 2 : Rat) - exampleSquare.lastFallTime ≥ exampleSquare.fallSpeed) := by
    rw [exampleSquare_clock.1, exampleSquare_clock.2]; norm_num
  rw [if_neg h]
  split <;> rfl

/-! ## Restart -/

theorem gridAt_zero (y x : Int) : gridAt (fun _ _ => 0) y x = 0 := by
  unfold gridAt
  split <;> rfl

/-- A piece that does not collide lies inside the field. -/
theorem inBounds_of_not_collision (s : TetrisGame) (p : Tetromino) (dx dy : Int)
    (h : s.checkCollision p dx dy = false) :
    InBounds { p with x := p.x + dx, y := p.y + dy } := by
  intro r c hocc
  have hn : ¬ s.checkCollision p dx dy = true := by rw [h]; exact Bool.false_ne_true
  rw [checkCollision_eq_true_iff] at hn
  have h1 : ¬ (p.x + (c.val : Int) + dx < 0) := fun hh => hn ⟨r, c, hocc, Or.inl hh⟩
  have h2 : ¬ (p.x + (c.val : Int) + dx ≥ 15) := fun hh => hn ⟨r, c, hocc, Or.inr (Or.inl hh)⟩
  have h3 : ¬ (p.y + (r.val : Int) + dy ≥ 20) :=
    fun hh => hn ⟨r, c, hocc, Or.inr (Or.inr (Or.inl hh))⟩
  show 0 ≤ p.x + dx + (c.val : Int) ∧ p.x + dx + (c.val : Int) < 15 ∧
    p.y + dy + (r.val : Int) < 20
  omega

/-- A piece at the spawn position (column 5, row 0) lies inside the field,
whatever its matrix. -/
theorem inBounds_spawn (p : Tetromino) (hx : p.x = 5) (hy : p.y = 0) : InBounds p := by
  intro r c _
  have := r.isLt
  have := c.isLt
  rw [hx, hy]
  omega

/-- On an empty playfield a piece inside the field does not collide. -/
theorem checkCollision_empty (s : TetrisGame) (p : Tetromino)
    (hg : s.grid = fun _ _ => 0) (hb : InBounds p) : s.checkCollision p 0 0 = false := by
  cases hc : s.checkCollision p 0 0 with
  | false => rfl
  | true =>
    obtain ⟨r, c, hocc, h⟩ := (checkCollision_eq_true_iff s p 0 0).mp hc
    obtain ⟨h1, h2, h3⟩ := hb r c hocc
    rw [hg] at h
    rcases h with h | h | h | ⟨_, h⟩
    · omega
    · omega
    · omega
    · exact absurd (gridAt_zero _ _) h

/-- `restartGame` in closed form: the spawn on the emptied playfield never
collides. -/
theorem restartGame_eq (s : TetrisGame) (r1 r2 : Fin 7) :
    s.restartGame r1 r2 =
      { s with
        grid := fun _ _ => 0
        gridColors := fun _ _ _ => 0
        gameOver := false
        gamePaused := false
        showHelp := false
        score := 0
        level := 1
        linesCleared := 0
        fallSpeed := s.baseFallSpeed
        currentPiece := { s.nextPiece.setType r1 with x := 5, y := 0 }
        nextPiece := (s.nextPiece.setType r1).setType r2 } := by
  unfold TetrisGame.restartGame TetrisGame.spawnNewPiece
  simp only
  rw [if_neg]
  · rfl
  · rw [Bool.not_eq_true]
    exact checkCollision_empty _ _ rfl (inBounds_spawn _ rfl rfl)

/-- C11. From every state and for every pair of draws, `restartGame` yields an
all-empty playfield (occupancy and colours), score 0, level 1, `linesCleared`
0, a fall interval equal to the base interval, help closed, not paused and not
game over, with the current piece of the canonical shape of the first draw at
column 5, row 0. -/
theorem C11_restartGame_spec (s : TetrisGame) (r1 r2 : Fin 7) :
    (s.restartGame r1 r2).grid = (fun _ _ => 0) ∧
      (s.restartGame r1 r2).gridColors = (fun _ _ _ => 0) ∧
      (s.restartGame r1 r2).score = 0 ∧
      (s.restartGame r1 r2).level = 1 ∧
      (s.restartGame r1 r2).linesCleared = 0 ∧
      (s.restartGame r1 r2).fallSpeed = s.baseFallSpeed ∧
      (s.restartGame r1 r2).baseFallSpeed = s.baseFallSpeed ∧
      (s.restartGame r1 r2).showHelp = false ∧
      (s.restartGame r1 r2).gamePaused = false ∧
      (s.restartGame r1 r2).gameOver = false ∧
      (s.restartGame r1 r2).currentPiece.shape = TETROMINO_SHAPES r1 ∧
      (∃ t : Fin 7, (s.restartGame r1 r2).currentPiece.shape = TETROMINO_SHAPES t) ∧
      (s.restartGame r1 r2).currentPiece.x = 5 ∧
      (s.restartGame r1 r2).currentPiece.y = 0 := by
  rw [restartGame_eq]
  exact ⟨rfl, rfl, rfl, rfl, rfl, rfl, rfl, rfl, rfl, rfl, rfl, ⟨r1, rfl⟩, rfl, rfl⟩

/-! ## The playfield and piece invariant -/

theorem rows_congr (s s1 : TetrisGame) (hg : s1.grid = s.grid)
    (hc : s1.gridColors = s.gridColors) : s1.rows = s.rows := by
  unfold TetrisGame.rows TetrisGame.rowOf
  rw [hg, hc]

theorem GameInv.of_fields_eq {s s1 : TetrisGame} (h : GameInv s) (hg : s1.grid = s.grid)
    (hc : s1.gridColors = s.gridColors) (hp : s1.currentPiece = s.currentPiece)
    (hgo : s1.gameOver = s.gameOver) : GameInv s1 := by
  obtain ⟨h1, h2, h3⟩ := h
  refine ⟨by rw [hp]; exact h1, ?_, ?_⟩
  · unfold NoFullRow
    rw [rows_congr s s1 hg hc]
    exact h2
  · unfold NoOverlap
    rw [hgo, hp, checkCollision_congr s s1 hg]
    exact h3

/-- Replacing the current piece by one that does not collide keeps the
invariant. -/
theorem GameInv.setPiece {s : TetrisGame} (h : GameInv s) (p : Tetromino)
    (hc : s.checkCollision p 0 0 = false) : GameInv { s with currentPiece := p } := by
  refine ⟨?_, ?_, ?_⟩
  · have := inBounds_of_not_collision s p 0 0 hc
    simpa [add_zero] using this
  · intro r hr
    exact h.2.1 r hr
  · intro _
    exact hc

theorem noFullRow_of_grid_zero (s : TetrisGame) (hg : s.grid = fun _ _ => 0) :
    NoFullRow s := by
  intro r hr
  unfold TetrisGame.rows at hr
  rw [List.mem_ofFn] at hr
  obtain ⟨y, rfl⟩ := hr
  rw [← fullLine_eq_rowFull]
  unfold TetrisGame.fullLine
  rw [hg]
  rfl

/-- A spawn keeps the invariant: the new piece is at column 5, row 0, and the
game is over if it collides there. -/
theorem spawnNewPiece_gameInv (s : TetrisGame) (r : Fin 7) (h : NoFullRow s) :
    GameInv (s.spawnNewPiece r) := by
  have hg : (s.spawnNewPiece r).grid = s.grid := by rw [spawnNewPiece_frame]
  have hc : (s.spawnNewPiece r).gridColors = s.gridColors := by rw [spawnNewPiece_frame]
  refine ⟨?_, ?_, ?_⟩
  · apply inBounds_spawn
    · unfold TetrisGame.spawnNewPiece
      simp only
      split <;> rfl
    · unfold TetrisGame.spawnNewPiece
      simp only
      split <;> rfl
  · unfold NoFullRow
    rw [rows_congr s _ hg hc]
    exact h
  · unfold NoOverlap TetrisGame.spawnNewPiece
    simp only
    split
    · intro hgo
      cases hgo
    · next hcol =>
      intro _
      simpa using hcol

theorem restartGame_gameInv (s : TetrisGame) (r1 r2 : Fin 7) :
    GameInv (s.restartGame r1 r2) := by
  unfold TetrisGame.restartGame
  apply spawnNewPiece_gameInv
  exact noFullRow_of_grid_zero _ rfl

theorem construct_gameInv (r1 r2 : Fin 7) : GameInv (TetrisGame.construct r1 r2) := by
  unfold TetrisGame.construct
  apply spawnNewPiece_gameInv
  exact noFullRow_of_grid_zero _ rfl

theorem moveLeft_gameInv (s : TetrisGame) (h : GameInv s) : GameInv s.moveLeft := by
  unfold TetrisGame.moveLeft
  split
  · next hc =>
    have hc1 : s.checkCollision s.currentPiece (-1) 0 = false := by simpa using hc
    rw [← checkCollision_shift] at hc1
    have := h.setPiece _ hc1
    simpa [sub_eq_add_neg] using this
  · exact h

theorem moveRight_gameInv (s : TetrisGame) (h : GameInv s) : GameInv s.moveRight := by
  unfold TetrisGame.moveRight
  split
  · next hc =>
    have hc1 : s.checkCollision s.currentPiece 1 0 = false := by simpa using hc
    rw [← checkCollision_shift] at hc1
    have := h.setPiece _ hc1
    simpa using this
  · exact h

theorem softDrop_gameInv (s : TetrisGame) (h : GameInv s) : GameInv s.softDrop := by
  unfold TetrisGame.softDrop
  split
  · next hc =>
    have hc1 : s.checkCollision s.currentPiece 0 1 = false := by simpa using hc
    rw [← checkCollision_shift] at hc1
    have := h.setPiece _ hc1
    simpa using this
  · exact h

/-- The kick loop either gives up or commits the rotated piece at a kick
offset at which it does not collide. -/
theorem tryKicks_cases (s : TetrisGame) (R : Tetromino) (ks : List (Int × Int)) :
    s.tryKicks R ks = s ∨
      ∃ k ∈ ks,
        s.tryKicks R ks =
            { s with currentPiece := { R with x := R.x + k.1, y := R.y + k.2 } } ∧
          s.checkCollision R k.1 k.2 = false := by
  induction ks with
  | nil => exact Or.inl rfl
  | cons a ks ih =>
    unfold TetrisGame.tryKicks
    split
    · next hc =>
      exact Or.inr ⟨a, List.mem_cons_self _ _, rfl, by simpa using hc⟩
    · rcases ih with h | ⟨k, hk, h1, h2⟩
      · exact Or.inl h
      · exact Or.inr ⟨k, List.mem_cons_of_mem _ hk, h1, h2⟩

/-- `rotatePiece` either leaves the state unchanged or commits the rotated
piece at one of the six candidate offsets, at which it does not collide. -/
theorem rotatePiece_cases (s : TetrisGame) :
    s.rotatePiece = s ∨
      ∃ k ∈ ((0, 0) :: TetrisGame.kicks : List (Int × Int)),
        s.rotatePiece =
            { s with
              currentPiece :=
                { TetrisGame.rotateShape s.currentPiece with
                  x := (TetrisGame.rotateShape s.currentPiece).x + k.1
                  y := (TetrisGame.rotateShape s.currentPiece).y + k.2 } } ∧
          s.checkCollision (TetrisGame.rotateShape s.currentPiece) k.1 k.2 = false := by
  unfold TetrisGame.rotatePiece
  simp only
  split
  · next hc =>
    refine Or.inr ⟨(0, 0), List.mem_cons_self _ _, ?_, by simpa using hc⟩
    simp only [add_zero]
  · rcases tryKicks_cases s (TetrisGame.rotateShape s.currentPiece) TetrisGame.kicks with
      h | ⟨k, hk, h1, h2⟩
    · exact Or.inl h
    · exact Or.inr ⟨k, List.mem_cons_of_mem _ hk, h1, h2⟩

theorem rotatePiece_gameInv (s : TetrisGame) (h : GameInv s) : GameInv s.rotatePiece := by
  rcases rotatePiece_cases s with h0 | ⟨k, _, h1, h2⟩
  · rw [h0]; exact h
  · rw [h1]
    rw [← checkCollision_shift] at h2
    exact h.setPiece _ h2

theorem hardDropLoop_gameInv (fuel : Nat) :
    ∀ (s s1 : TetrisGame), GameInv s → TetrisGame.hardDropLoop fuel s = some s1 →
      GameInv s1 := by
  induction fuel with
  | zero => intro s s1 _ h; cases h
  | succ fuel ih =>
    intro s s1 hinv h
    unfold TetrisGame.hardDropLoop at h
    split at h
    · next hc =>
      have hc1 : s.checkCollision s.currentPiece 0 1 = false := by simpa using hc
      rw [← checkCollision_shift] at hc1
      have hstep := hinv.setPiece _ hc1
      refine ih _ s1 ?_ h
      simpa using hstep
    · rw [Option.some.injEq] at h
      rw [← h]
      exact hinv

theorem handleMovement_gameInv (s s1 : TetrisGame) (inp : Input) (fuel : Nat)
    (hinv : GameInv s) (h : s.handleMovement inp fuel = some s1) : GameInv s1 := by
  unfold TetrisGame.handleMovement at h
  simp only [Option.map_eq_some'] at h
  obtain ⟨s5, h5, hrot⟩ := h
  have h1 : GameInv (if (inp.keyLeft || inp.keyA) = true then s.moveLeft else s) := by
    split
    · exact moveLeft_gameInv s hinv
    · exact hinv
  have h2 : GameInv (if (inp.keyRight || inp.keyD) = true then
      (if (inp.keyLeft || inp.keyA) = true then s.moveLeft else s).moveRight
      else (if (inp.keyLeft || inp.keyA) = true then s.moveLeft else s)) := by
    split
    · exact moveRight_gameInv _ h1
    · exact h1
  have h3 : GameInv (if (inp.keyDown || inp.keyS) = true then
      (if (inp.keyRight || inp.keyD) = true then
        (if (inp.keyLeft || inp.keyA) = true then s.moveLeft else s).moveRight
        else (if (inp.keyLeft || inp.keyA) = true then s.moveLeft else s)).softDrop
      else (if (inp.keyRight || inp.keyD) = true then
        (if (inp.keyLeft || inp.keyA) = true then s.moveLeft else s).moveRight
        else (if (inp.keyLeft || inp.keyA) = true then s.moveLeft else s))) := by
    split
    · exact softDrop_gameInv _ h2
    · exact h2
  have h4 : GameInv s5 := by
    split at h5
    · exact hardDropLoop_gameInv fuel _ s5 h3 h5
    · rw [Option.some.injEq] at h5
      rw [← h5]
      exact h3
  rw [← hrot]
  split
  · exact rotatePiece_gameInv s5 h4
  · exact h4

theorem placePiece_gameInv (s s1 : TetrisGame) (r : Fin 7)
    (h : s.placePiece r = some s1) : GameInv s1 := by
  unfold TetrisGame.placePiece at h
  cases hm : s.mergePiece with
  | none => rw [hm] at h; cases h
  | some a =>
    rw [hm] at h
    simp only at h
    cases hc : a.clearLines with
    | none => rw [hc] at h; cases h
    | some p =>
      obtain ⟨n, b⟩ := p
      rw [hc] at h
      simp only at h
      cases hu : b.updateScore n with
      | none => rw [hu] at h; cases h
      | some c =>
        rw [hu] at h
        simp only [Option.some.injEq] at h
        subst h
        apply spawnNewPiece_gameInv
        obtain ⟨b1, hb1, _, _, hnf⟩ := clearLines_spec a
        rw [hb1, Option.some.injEq, Prod.mk.injEq] at hc
        obtain ⟨_, hbb⟩ := hc
        subst hbb
        have hgrid : c.grid = b1.grid ∧ c.gridColors = b1.gridColors := by
          unfold TetrisGame.updateScore at hu
          split at hu
          · split at hu
            · cases hu
            · simp only at hu
              split at hu <;>
                (rw [Option.some.injEq] at hu; subst hu; exact ⟨rfl, rfl⟩)
          · rw [Option.some.injEq] at hu; subst hu; exact ⟨rfl, rfl⟩
        unfold NoFullRow
        rw [rows_congr b1 c hgrid.1 hgrid.2]
        exact hnf

theorem update_gameInv (s s1 : TetrisGame) (t : Rat) (r : Fin 7) (hinv : GameInv s)
    (h : s.update t r = some s1) : GameInv s1 := by
  unfold TetrisGame.update at h
  split at h
  · rw [Option.some.injEq] at h; subst h; exact hinv
  · split at h
    · split at h
      · next hc =>
        rw [Option.some.injEq] at h; subst h
        have hc1 : s.checkCollision s.currentPiece 0 1 = false := by simpa using hc
        rw [← checkCollision_shift] at hc1
        have hstep := hinv.setPiece _ hc1
        exact GameInv.of_fields_eq hstep rfl rfl (by simp) rfl
      · rw [Option.map_eq_some'] at h
        obtain ⟨a, ha, rfl⟩ := h
        exact (placePiece_gameInv s a r ha).of_fields_eq rfl rfl rfl rfl
    · rw [Option.some.injEq] at h; subst h; exact hinv

theorem handleKeys_gameInv (s s1 : TetrisGame) (inp : Input) (r1 r2 : Fin 7) (fuel : Nat)
    (hinv : GameInv s) (h : s.handleKeys inp r1 r2 fuel = some s1) : GameInv s1 := by
  have hP : GameInv (s.pauseKey inp) := by
    unfold TetrisGame.pauseKey
    split
    · exact hinv.of_fields_eq rfl rfl rfl rfl
    · exact hinv
  have hR : GameInv ((s.pauseKey inp).restartKey inp r1 r2) := by
    unfold TetrisGame.restartKey
    split
    · exact restartGame_gameInv _ _ _
    · exact hP
  unfold TetrisGame.handleKeys TetrisGame.gatedMovement at h
  split at h
  · rw [Option.some.injEq] at h
    rw [← h]
    exact hR
  · exact handleMovement_gameInv _ s1 inp fuel hR h

theorem handleInput_gameInv (s s1 : TetrisGame) (inp : Input) (r1 r2 : Fin 7) (fuel : Nat)
    (hinv : GameInv s) (h : s.handleInput inp r1 r2 fuel = some s1) : GameInv s1 := by
  unfold TetrisGame.handleInput at h
  split at h
  · rw [Option.some.injEq] at h; subst h; exact restartGame_gameInv _ _ _
  · split at h
    · rw [Option.some.injEq] at h; subst h; exact hinv.of_fields_eq rfl rfl rfl rfl
    · split at h
      · rw [Option.some.injEq] at h; subst h; exact hinv.of_fields_eq rfl rfl rfl rfl
      · split at h
        · rw [Option.some.injEq] at h; subst h; exact hinv
        · exact handleKeys_gameInv s s1 inp r1 r2 fuel hinv h

/-- Every reachable state satisfies the playfield and piece invariant. -/
theorem reachable_gameInv (s : TetrisGame) (h : Reachable s) : GameInv s := by
  induction h with
  | construct r1 r2 => exact construct_gameInv r1 r2
  | input s s1 inp r1 r2 fuel _ hstep ih => exact handleInput_gameInv s s1 inp r1 r2 fuel ih hstep
  | update s s1 t r _ hstep ih => exact update_gameInv s s1 t r ih hstep

/-! ## Bounds -/

/-- A piece that would leave the field collides. -/
theorem collision_of_not_inBounds (s : TetrisGame) (p : Tetromino) (dx dy : Int)
    (h : ¬ InBounds { p with x := p.x + dx, y := p.y + dy }) :
    s.checkCollision p dx dy = true := by
  cases hc : s.checkCollision p dx dy with
  | true => rfl
  | false => exact absurd (inBounds_of_not_collision s p dx dy hc) h

/-- C12. In every reachable state every occupied cell of the current piece
lies in columns `[0, 15)` and in a row below 20, and so it does after each
move, soft drop and rotation; a move left, move right or soft drop that would
take an occupied cell out of these bounds is rejected and returns the state
unchanged, and so is a rotation all of whose six candidate placements would. -/
theorem C12_bounds_invariant (s : TetrisGame) (h : Reachable s) :
    (∀ r c : Fin 4, s.currentPiece.shape r c ≠ 0 →
        0 ≤ s.currentPiece.x + (c.val : Int) ∧ s.currentPiece.x + (c.val : Int) < 15 ∧
          s.currentPiece.y + (r.val : Int) < 20) ∧
      InBounds s.moveLeft.currentPiece ∧ InBounds s.moveRight.currentPiece ∧
      InBounds s.softDrop.currentPiece ∧ InBounds s.rotatePiece.currentPiece ∧
      (¬ InBounds { s.currentPiece with x := s.currentPiece.x - 1 } → s.moveLeft = s) ∧
      (¬ InBounds { s.currentPiece with x := s.currentPiece.x + 1 } → s.moveRight = s) ∧
      (¬ InBounds { s.currentPiece with y := s.currentPiece.y + 1 } → s.softDrop = s) ∧
      ((∀ k ∈ ([(0, 0), (-1, 0), (1, 0), (0, -1), (-1, -1), (1, -1)] : List (Int × Int)),
          ¬ InBounds
            { TetrisGame.rotateShape s.currentPiece with
              x := s.currentPiece.x + k.1, y := s.currentPiece.y + k.2 }) →
        s.rotatePiece = s) := by
  have hinv := reachable_gameInv s h
  refine ⟨hinv.1, (moveLeft_gameInv s hinv).1, (moveRight_gameInv s hinv).1,
    (softDrop_gameInv s hinv).1, (rotatePiece_gameInv s hinv).1, ?_, ?_, ?_, ?_⟩
  · intro hn
    have hn1 : ¬ InBounds { s.currentPiece with
        x := s.currentPiece.x + (-1), y := s.currentPiece.y + 0 } := by
      simpa [sub_eq_add_neg] using hn
    have hc := collision_of_not_inBounds s s.currentPiece (-1) 0 hn1
    unfold TetrisGame.moveLeft
    simp [hc]
  · intro hn
    have hn1 : ¬ InBounds { s.currentPiece with
        x := s.currentPiece.x + 1, y := s.currentPiece.y + 0 } := by
      simpa using hn
    have hc := collision_of_not_inBounds s s.currentPiece 1 0 hn1
    unfold TetrisGame.moveRight
    simp [hc]
  · intro hn
    have hn1 : ¬ InBounds { s.currentPiece with
        x := s.currentPiece.x + 0, y := s.currentPiece.y + 1 } := by
      simpa using hn
    have hc := collision_of_not_inBounds s s.currentPiece 0 1 hn1
    unfold TetrisGame.softDrop
    simp [hc]
  · intro hall
    have hx : (TetrisGame.rotateShape s.currentPiece).x = s.currentPiece.x := by
      rw [rotateShape_eq]
    have hy : (TetrisGame.rotateShape s.currentPiece).y = s.currentPiece.y := by
      rw [rotateShape_eq]
    rcases rotatePiece_cases s with h0 | ⟨k, hk, _, h2⟩
    · exact h0
    · have hn := hall k hk
      rw [← hx, ← hy] at hn
      have hc := collision_of_not_inBounds s _ k.1 k.2 hn
      rw [h2] at hc
      cases hc

/-! ## At most four rows per placement -/

/-- If every element satisfying `p` sits at an index in `[a, a + w)`, at most
`w` elements satisfy `p`. -/
theorem countP_le_window {α : Type} (p : α → Bool) (L : List α) (a w : Nat)
    (h : ∀ (i : Nat) (hi : i < L.length), p L[i] = true → a ≤ i ∧ i < a + w) :
    L.countP p ≤ w := by
  have hsplit : L = L.take a ++ ((L.drop a).take w ++ (L.drop a).drop w) := by
    rw [List.take_append_drop, List.take_append_drop]
  have h1 : (L.take a).countP p = 0 := by
    rw [List.countP_eq_zero]
    intro x hx hp
    rw [List.mem_take_iff_getElem] at hx
    obtain ⟨i, hi, rfl⟩ := hx
    have := (h i (by omega) hp).1
    omega
  have h3 : ((L.drop a).drop w).countP p = 0 := by
    rw [List.countP_eq_zero]
    intro x hx hp
    rw [List.mem_drop_iff_getElem] at hx
    obtain ⟨i, hi, rfl⟩ := hx
    rw [List.getElem_drop] at hp
    have := (h (a + (w + i)) (by simp only [List.length_drop] at hi; omega) hp).2
    omega
  have h2 : ((L.drop a).take w).countP p ≤ w :=
    le_trans (List.countP_le_length _) (List.length_take_le _ _)
  calc L.countP p
      = (L.take a ++ ((L.drop a).take w ++ (L.drop a).drop w)).countP p := by rw [← hsplit]
    _ = (L.take a).countP p +
          (((L.drop a).take w).countP p + ((L.drop a).drop w).countP p) := by
        rw [List.countP_append, List.countP_append]
    _ ≤ w := by omega

theorem noFullRow_iff (s : TetrisGame) :
    NoFullRow s ↔ ∀ y : Fin GRID_HEIGHT, s.fullLine y = false := by
  unfold NoFullRow TetrisGame.rows
  constructor
  · intro h y
    rw [fullLine_eq_rowFull]
    exact h _ ((List.mem_ofFn _ _).mpr ⟨y, rfl⟩)
  · intro h r hr
    rw [List.mem_ofFn] at hr
    obtain ⟨y, rfl⟩ := hr
    rw [← fullLine_eq_rowFull]
    exact h y

/-- After the merge of a piece that lies inside the field, a row can be full
only if the piece has a matrix row on it (the field had no full row before). -/
theorem fullLine_after_merge (s s1 : TetrisGame) (hb : InBounds s.currentPiece)
    (hnf : NoFullRow s) (hm : s.mergePiece = some s1) (Y : Fin GRID_HEIGHT)
    (hfull : s1.fullLine Y = true) :
    ∃ r : Fin 4, s.currentPiece.y + (r.val : Int) = (Y.val : Int) := by
  obtain ⟨s2, h2, _, hcells⟩ :=
    foldlM_placeCell_spec TetrisGame.matrixCells s (fun c _ => hb c.1 c.2)
  have hs : s2 = s1 := by
    have : s.mergePiece = some s2 := h2
    rw [hm, Option.some.injEq] at this
    exact this.symm
  subst hs
  by_contra hcon
  have hsame : ∀ X : Fin GRID_WIDTH, s2.grid Y X = s.grid Y X := by
    intro X
    apply ((hcells Y X).2 _).1
    rintro ⟨c, _, hcov⟩
    exact hcon ⟨c.1, hcov.2.1⟩
  have : s.fullLine Y = true := by
    unfold TetrisGame.fullLine at hfull ⊢
    simpa [hsame] using hfull
  rw [(noFullRow_iff s).mp hnf Y] at this
  cases this

/-- A placement from a state that satisfies the invariant runs through: the
merge writes inside the field, `clearLines` returns a count in `0 .. 4`, the
score table lookup is in range, and the next piece is spawned. -/
theorem placePiece_runs (s : TetrisGame) (hinv : GameInv s) (r : Fin 7) :
    ∃ (s1 s2 s3 : TetrisGame) (n : Int),
      s.mergePiece = some s1 ∧ s1.clearLines = some (n, s2) ∧ 0 ≤ n ∧ n ≤ 4 ∧
        s2.updateScore n = some s3 ∧ s.placePiece r = some (s3.spawnNewPiece r) := by
  obtain ⟨hb, hnf, _⟩ := hinv
  obtain ⟨s1, hm, _, _⟩ :=
    foldlM_placeCell_spec TetrisGame.matrixCells s (fun c _ => hb c.1 c.2)
  have hm1 : s.mergePiece = some s1 := hm
  obtain ⟨s2, hc, _, _, _⟩ := clearLines_spec s1
  have hcount : s1.rows.countP rowFull ≤ 4 := by
    apply countP_le_window rowFull s1.rows s.currentPiece.y.toNat 4
    intro i hi hfull
    rw [rows_getElem, ← fullLine_eq_rowFull] at hfull
    obtain ⟨k, hk⟩ := fullLine_after_merge s s1 hb hnf hm1 _ hfull
    have := k.isLt
    simp only at hk
    omega
  have hu : ∃ s3, s2.updateScore ((s1.rows.countP rowFull : Nat) : Int) = some s3 := by
    by_cases h0 : s1.rows.countP rowFull = 0
    · rw [h0]
      exact ⟨s2, by simp [TetrisGame.updateScore]⟩
    · obtain ⟨_, _, hrun⟩ := updateScore_pos s2 ((s1.rows.countP rowFull : Nat) : Int)
        (by omega) (by omega)
      exact ⟨_, hrun⟩
  obtain ⟨s3, hu⟩ := hu
  refine ⟨s1, s2, s3, _, hm1, hc, by omega, by omega, hu, ?_⟩
  unfold TetrisGame.placePiece
  rw [hm1]
  simp only
  rw [hc]
  simp only
  rw [hu]

/-- C18. In every reachable state no row of the playfield is full, and every
placement from such a state runs through with a cleared-line count in
`0 .. 4`: the merge writes inside the field, `clearLines` returns `n` with
`0 <= n <= 4`, so `updateScore(n)` either skips the table (`n = 0`) or reads
`SCORE_VALUES[n - 1]` inside its four entries. -/
theorem C18_at_most_four_rows (s : TetrisGame) (h : Reachable s) :
    (∀ y : Fin GRID_HEIGHT, s.fullLine y = false) ∧
      ∀ r : Fin 7,
        ∃ (s1 s2 s3 : TetrisGame) (n : Int),
          s.mergePiece = some s1 ∧ s1.clearLines = some (n, s2) ∧ 0 ≤ n ∧ n ≤ 4 ∧
            (n = 0 ∨ ∃ v : Int, SCORE_VALUES[(n - 1).toNat]? = some v) ∧
            s2.updateScore n = some s3 ∧ s.placePiece r = some (s3.spawnNewPiece r) := by
  have hinv := reachable_gameInv s h
  refine ⟨(noFullRow_iff s).mp hinv.2.1, ?_⟩
  intro r
  obtain ⟨s1, s2, s3, n, h1, h2, h3, h4, h5, h6⟩ := placePiece_runs s hinv r
  refine ⟨s1, s2, s3, n, h1, h2, h3, h4, ?_, h5, h6⟩
  by_cases h0 : n = 0
  · exact Or.inl h0
  · obtain ⟨v, hv, _⟩ := updateScore_pos s2 n (by omega) h4
    exact Or.inr ⟨v, hv⟩

/-! ## Non-overlap -/

/-- C19. In every reachable state in which the game is not over, the current
piece does not collide where it is: every playfield cell under an occupied
piece cell is empty, so the merge of a placement succeeds and leaves every
occupied playfield cell (occupancy and colour) as it was. -/
theorem C19_no_overlap (s : TetrisGame) (h : Reachable s) (hgo : s.gameOver = false) :
    s.checkCollision s.currentPiece 0 0 = false ∧
      (∀ (r c : Fin 4) (Y : Fin GRID_HEIGHT) (X : Fin GRID_WIDTH),
        s.currentPiece.shape r c ≠ 0 →
        s.currentPiece.y + (r.val : Int) = (Y.val : Int) →
        s.currentPiece.x + (c.val : Int) = (X.val : Int) → s.grid Y X = 0) ∧
      ∃ s1 : TetrisGame,
        s.mergePiece = some s1 ∧
          ∀ (Y : Fin GRID_HEIGHT) (X : Fin GRID_WIDTH), s.grid Y X ≠ 0 →
            s1.grid Y X = s.grid Y X ∧ s1.gridColors Y X = s.gridColors Y X := by
  have hinv := reachable_gameInv s h
  have hnc := hinv.2.2 hgo
  have hcell : ∀ (r c : Fin 4) (Y : Fin GRID_HEIGHT) (X : Fin GRID_WIDTH),
      s.currentPiece.shape r c ≠ 0 →
      s.currentPiece.y + (r.val : Int) = (Y.val : Int) →
      s.currentPiece.x + (c.val : Int) = (X.val : Int) → s.grid Y X = 0 := by
    intro r c Y X hocc hy hx
    by_contra hne
    have : s.checkCollision s.currentPiece 0 0 = true := by
      rw [checkCollision_eq_true_iff]
      refine ⟨r, c, hocc, Or.inr (Or.inr (Or.inr ⟨by omega, ?_⟩))⟩
      rw [gridAt_ne_zero_iff]
      exact ⟨Y, X, by omega, by omega, hne⟩
    rw [hnc] at this
    cases this
  refine ⟨hnc, hcell, ?_⟩
  obtain ⟨s1, hm, _, hcells⟩ :=
    foldlM_placeCell_spec TetrisGame.matrixCells s (fun c _ => hinv.1 c.1 c.2)
  refine ⟨s1, hm, ?_⟩
  intro Y X hne
  apply (hcells Y X).2
  rintro ⟨c, _, hcov⟩
  exact hne (hcell c.1 c.2 Y X hcov.1 hcov.2.1 hcov.2.2)

/-! ## Pause toggle in a game that is over -/

/-- C13 fails as stated. `exampleOver` has `gameOver` set, the help overlay
closed and `gamePaused` clear; a frame with only the `P` key returns with
`gamePaused` set. -/
theorem C13_pause_not_blocked :
    (exampleOver.gameOver, exampleOver.showHelp, exampleOver.gamePaused) =
        (true, false, false) ∧
      ((exampleOver.handleInput Input.pOnly 0 0 0).map fun s1 =>
        (s1.gameOver, s1.gamePaused)) = some (true, true) := by
  refine ⟨by decide, by decide⟩

/-- C13, amended. With `gameOver` set and the help overlay closed, a frame in
which the `P` key edge fires, without the `R` key and without a click on the
restart or help button, flips `gamePaused` and changes nothing else: the game
stays over. -/
theorem C13_pause_toggle_amended (s : TetrisGame) (inp : Input) (r1 r2 : Fin 7) (fuel : Nat)
    (hgo : s.gameOver = true) (hhelp : s.showHelp = false) (hP : inp.keyP = true)
    (hR : inp.keyR = false)
    (hc1 : (inp.mouseClicked && inp.restartButtonHovered) = false)
    (hc2 : (inp.mouseClicked && inp.helpButtonHovered) = false) :
    s.handleInput inp r1 r2 fuel = some { s with gamePaused := !s.gamePaused } := by
  unfold TetrisGame.handleInput TetrisGame.handleKeys TetrisGame.gatedMovement
    TetrisGame.restartKey TetrisGame.pauseKey
  simp [hc1, hc2, hhelp, hP, hR, hgo]

/-- The amended C13 at `exampleOver` with only the `P` key. -/
theorem C13_pause_toggle_amended_witness :
    exampleOver.handleInput Input.pOnly 0 0 0 =
      some { exampleOver with gamePaused := !exampleOver.gamePaused } :=
  C13_pause_toggle_amended exampleOver Input.pOnly 0 0 0 rfl (by decide) rfl rfl rfl rfl

/-! ## Dispatch order within a frame -/

/-- C16 fails as stated. `examplePaused` is paused, with the square at column
5; in a frame in which `P` and the left key fire together the pause toggle is
accepted (the game resumes) and the move is applied all the same: the square
is at column 4. -/
theorem C16_resume_does_not_short_circuit :
    (examplePaused.gamePaused, examplePaused.currentPiece.x) = (true, 5) ∧
      ((examplePaused.handleInput Input.pAndLeft 0 0 0).map fun s1 =>
        (s1.gamePaused, s1.currentPiece.x)) = some (false, 4) := by
  refine ⟨by decide, by decide⟩

/-- The `R` key does not end the frame either: with `R` and the left key
together the game is restarted and the fresh piece is moved to column 4. -/
theorem handleInput_rAndLeft :
    ((exampleSquare.handleInput Input.rAndLeft 0 0 0).map fun s1 =>
      (s1.currentPiece.x, s1.currentPiece.y, s1.score)) = some (4, 0, 0) := by
  decide

/-- C16, amended. A restart or help toggle accepted by a button click ends the
frame at once, and so does an accepted close-help click. With the help overlay
closed and no restart or help click, in a frame without the `R` key, a `P`
edge that pauses the running game ends the frame at the mode gate. In all
these cases the result is the toggled state and no movement, soft-drop,
hard-drop or rotation key of the frame is applied. Under the same conditions
(overlay closed, no restart or help click, no `R` key) a `P` edge that resumes
a paused game that is not over does not end the frame: the movement keys fired
with it are applied to the resumed game. Nothing is said about frames in which
the `R` key fires. -/
theorem C16_short_circuit_amended (s : TetrisGame) (inp : Input) (r1 r2 : Fin 7)
    (fuel : Nat) :
    ((inp.mouseClicked && inp.restartButtonHovered) = true →
        s.handleInput inp r1 r2 fuel = some (s.restartGame r1 r2)) ∧
      ((inp.mouseClicked && inp.restartButtonHovered) = false →
        (inp.mouseClicked && inp.helpButtonHovered) = true →
        s.handleInput inp r1 r2 fuel = some { s with showHelp := !s.showHelp }) ∧
      ((inp.mouseClicked && inp.restartButtonHovered) = false →
        (inp.mouseClicked && inp.helpButtonHovered) = false →
        (inp.mouseClicked && (s.showHelp && inp.closeHelpButtonArea)) = true →
        s.handleInput inp r1 r2 fuel = some { s with showHelp := false }) ∧
      ((inp.mouseClicked && inp.restartButtonHovered) = false →
        (inp.mouseClicked && inp.helpButtonHovered) = false →
        s.showHelp = false → inp.keyP = true → inp.keyR = false → s.gamePaused = false →
        s.handleInput inp r1 r2 fuel = some { s with gamePaused := true }) ∧
      ((inp.mouseClicked && inp.restartButtonHovered) = false →
        (inp.mouseClicked && inp.helpButtonHovered) = false →
        s.showHelp = false → inp.keyP = true → inp.keyR = false → s.gamePaused = true →
        s.gameOver = false →
        s.handleInput inp r1 r2 fuel =
          TetrisGame.handleMovement { s with gamePaused := false } inp fuel) := by
  refine ⟨?_, ?_, ?_, ?_, ?_⟩
  · intro h
    unfold TetrisGame.handleInput
    rw [if_pos h]
  · intro h1 h2
    unfold TetrisGame.handleInput
    rw [if_neg (by simp [h1]), if_pos h2]
  · intro h1 h2 h3
    unfold TetrisGame.handleInput
    rw [if_neg (by simp [h1]), if_neg (by simp [h2]), if_pos h3]
  · intro hc1 hc2 hh hP hR hpa
    unfold TetrisGame.handleInput TetrisGame.handleKeys TetrisGame.gatedMovement
      TetrisGame.restartKey TetrisGame.pauseKey
    rw [if_neg (by simp [hc1]), if_neg (by simp [hc2]), if_neg (by simp [hh]),
      if_neg (by simp [hh])]
    simp [hP, hR, hpa]
  · intro hc1 hc2 hh hP hR hpa hgo
    unfold TetrisGame.handleInput TetrisGame.handleKeys TetrisGame.gatedMovement
      TetrisGame.restartKey TetrisGame.pauseKey
    rw [if_neg (by simp [hc1]), if_neg (by simp [hc2]), if_neg (by simp [hh]),
      if_neg (by simp [hh])]
    simp [hP, hR, hpa, hgo]

/-- The amended C16 at `examplePaused` with `P` and the left key: the frame is
the movement part run on the resumed game. -/
theorem C16_short_circuit_amended_witness :
    examplePaused.handleInput Input.pAndLeft 0 0 0 =
      TetrisGame.handleMovement { examplePaused with gamePaused := false } Input.pAndLeft 0 :=
  (C16_short_circuit_amended examplePaused Input.pAndLeft 0 0 0).2.2.2.2 rfl rfl (by decide)
    rfl rfl rfl (by decide)

/-! ## The row of the current piece -/

/-- C17 fails as stated. In `exampleKick` the line piece lies at row 0 and
does not collide; its rotation collides with the stack at the offsets (0,0),
(-1,0) and (1,0), the kick (0,-1) is taken, and the piece ends at row -1, by
`rotatePiece` and by a frame with only the up key alike. -/
theorem C17_rotation_kick_negative_row :
    (exampleKick.currentPiece.y, exampleKick.checkCollision exampleKick.currentPiece 0 0) =
        (0, false) ∧
      exampleKick.rotatePiece.currentPiece.y = -1 ∧
      ((exampleKick.handleInput Input.upOnly 0 0 0).map fun s1 => s1.currentPiece.y) =
        some (-1) := by
  refine ⟨by decide, by decide, by decide⟩

theorem moveLeft_y (s : TetrisGame) : s.moveLeft.currentPiece.y = s.currentPiece.y := by
  unfold TetrisGame.moveLeft
  split <;> rfl

theorem moveRight_y (s : TetrisGame) : s.moveRight.currentPiece.y = s.currentPiece.y := by
  unfold TetrisGame.moveRight
  split <;> rfl

theorem softDrop_y (s : TetrisGame) : s.currentPiece.y ≤ s.softDrop.currentPiece.y := by
  unfold TetrisGame.softDrop
  split
  · show s.currentPiece.y ≤ s.currentPiece.y + 1
    omega
  · exact le_refl _

theorem hardDropLoop_y (fuel : Nat) :
    ∀ (s s1 : TetrisGame), TetrisGame.hardDropLoop fuel s = some s1 →
      s.currentPiece.y ≤ s1.currentPiece.y := by
  induction fuel with
  | zero => intro s s1 h; cases h
  | succ fuel ih =>
    intro s s1 h
    unfold TetrisGame.hardDropLoop at h
    split at h
    · have := ih _ s1 h
      have h2 : s.currentPiece.y + 1 ≤ s1.currentPiece.y := this
      omega
    · rw [Option.some.injEq] at h
      rw [← h]

/-- A rotation keeps the row or, through a kick with `dy = -1`, lowers it by
one. -/
theorem rotatePiece_y (s : TetrisGame) :
    s.currentPiece.y - 1 ≤ s.rotatePiece.currentPiece.y ∧
      s.rotatePiece.currentPiece.y ≤ s.currentPiece.y := by
  have hy : (TetrisGame.rotateShape s.currentPiece).y = s.currentPiece.y := by
    rw [rotateShape_eq]
  rcases rotatePiece_cases s with h0 | ⟨k, hk, h1, _⟩
  · rw [h0]
    omega
  · rw [h1]
    show s.currentPiece.y - 1 ≤ (TetrisGame.rotateShape s.currentPiece).y + k.2 ∧
      (TetrisGame.rotateShape s.currentPiece).y + k.2 ≤ s.currentPiece.y
    rw [hy]
    have hk2 : k.2 = 0 ∨ k.2 = -1 := by
      simp only [TetrisGame.kicks, List.mem_cons, List.mem_singleton, List.not_mem_nil,
        or_false] at hk
      rcases hk with rfl | rfl | rfl | rfl | rfl | rfl <;> simp
    rcases hk2 with h | h <;> rw [h] <;> omega

theorem spawnNewPiece_y (s : TetrisGame) (r : Fin 7) :
    (s.spawnNewPiece r).currentPiece.y = 0 := by
  unfold TetrisGame.spawnNewPiece
  simp only
  split <;> rfl

theorem placePiece_y (s s1 : TetrisGame) (r : Fin 7) (h : s.placePiece r = some s1) :
    s1.currentPiece.y = 0 := by
  unfold TetrisGame.placePiece at h
  split at h
  · cases h
  · split at h
    · cases h
    · split at h
      · cases h
      · rw [Option.some.injEq] at h
        rw [← h]
        exact spawnNewPiece_y _ _

theorem update_y (s s1 : TetrisGame) (t : Rat) (r : Fin 7) (h0 : 0 ≤ s.currentPiece.y)
    (h : s.update t r = some s1) : 0 ≤ s1.currentPiece.y := by
  unfold TetrisGame.update at h
  split at h
  · rw [Option.some.injEq] at h; rw [← h]; exact h0
  · split at h
    · split at h
      · rw [Option.some.injEq] at h
        rw [← h]
        show 0 ≤ s.currentPiece.y + 1
        omega
      · rw [Option.map_eq_some'] at h
        obtain ⟨a, ha, rfl⟩ := h
        show 0 ≤ a.currentPiece.y
        rw [placePiece_y s a r ha]
    · rw [Option.some.injEq] at h; rw [← h]; exact h0

/-- The movement keys of a frame: the row stays at least 0 before the rotation
key is looked at, and the rotation lowers it by at most one. -/
theorem handleMovement_y (s s1 : TetrisGame) (inp : Input) (fuel : Nat)
    (h0 : 0 ≤ s.currentPiece.y) (h : s.handleMovement inp fuel = some s1) :
    -1 ≤ s1.currentPiece.y ∧ ((inp.keyUp || inp.keyW) = false → 0 ≤ s1.currentPiece.y) := by
  unfold TetrisGame.handleMovement at h
  simp only [Option.map_eq_some'] at h
  obtain ⟨s5, h5, hrot⟩ := h
  have h1 : 0 ≤ (if (inp.keyLeft || inp.keyA) = true then s.moveLeft else s).currentPiece.y := by
    split
    · rw [moveLeft_y]; exact h0
    · exact h0
  have h2 : 0 ≤ (if (inp.keyRight || inp.keyD) = true then
      (if (inp.keyLeft || inp.keyA) = true then s.moveLeft else s).moveRight
      else (if (inp.keyLeft || inp.keyA) = true then s.moveLeft else s)).currentPiece.y := by
    split
    · rw [moveRight_y]; exact h1
    · exact h1
  have h3 : 0 ≤ (if (inp.keyDown || inp.keyS) = true then
      (if (inp.keyRight || inp.keyD) = true then
        (if (inp.keyLeft || inp.keyA) = true then s.moveLeft else s).moveRight
        else (if (inp.keyLeft || inp.keyA) = true then s.moveLeft else s)).softDrop
      else (if (inp.keyRight || inp.keyD) = true then
        (if (inp.keyLeft || inp.keyA) = true then s.moveLeft else s).moveRight
        else (if (inp.keyLeft || inp.keyA) = true then s.moveLeft else s))).currentPiece.y := by
    split
    · exact le_trans h2 (softDrop_y _)
    · exact h2
  have h4 : 0 ≤ s5.currentPiece.y := by
    split at h5
    · exact le_trans h3 (hardDropLoop_y fuel _ s5 h5)
    · rw [Option.some.injEq] at h5
      rw [← h5]
      exact h3
  rw [← hrot]
  constructor
  · split
    · have := (rotatePiece_y s5).1
      omega
    · omega
  · intro hup
    rw [if_neg (by simp [hup])]
    exact h4

theorem restartGame_y (s : TetrisGame) (r1 r2 : Fin 7) :
    (s.restartGame r1 r2).currentPiece.y = 0 := by
  rw [restartGame_eq]

theorem handleInput_y (s s1 : TetrisGame) (inp : Input) (r1 r2 : Fin 7) (fuel : Nat)
    (h0 : 0 ≤ s.currentPiece.y) (h : s.handleInput inp r1 r2 fuel = some s1) :
    -1 ≤ s1.currentPiece.y ∧ ((inp.keyUp || inp.keyW) = false → 0 ≤ s1.currentPiece.y) := by
  have hkeep : ∀ t : TetrisGame, 0 ≤ t.currentPiece.y →
      (-1 ≤ t.currentPiece.y ∧ ((inp.keyUp || inp.keyW) = false → 0 ≤ t.currentPiece.y)) :=
    fun t ht => ⟨by omega, fun _ => ht⟩
  unfold TetrisGame.handleInput at h
  split at h
  · rw [Option.some.injEq] at h; rw [← h]
    exact hkeep _ (by rw [restartGame_y])
  · split at h
    · rw [Option.some.injEq] at h; rw [← h]; exact hkeep _ h0
    · split at h
      · rw [Option.some.injEq] at h; rw [← h]; exact hkeep _ h0
      · split at h
        · rw [Option.some.injEq] at h; rw [← h]; exact hkeep _ h0
        · have hP : 0 ≤ (s.pauseKey inp).currentPiece.y := by
            unfold TetrisGame.pauseKey
            split
            · exact h0
            · exact h0
          have hR : 0 ≤ ((s.pauseKey inp).restartKey inp r1 r2).currentPiece.y := by
            unfold TetrisGame.restartKey
            split
            · rw [restartGame_y]
            · exact hP
          unfold TetrisGame.handleKeys TetrisGame.gatedMovement at h
          split at h
          · rw [Option.some.injEq] at h
            rw [← h]
            exact hkeep _ hR
          · exact handleMovement_y _ s1 inp fuel hR h

/-- C17, amended. From a state whose current piece has `y >= 0`: a move left
or right keeps `y`; a soft drop and a hard drop do not lower it; a gravity
update and a spawn yield `y >= 0`; a rotation keeps `y` or, through a kick
offset with `dy = -1`, lowers it by one, so after it `y >= -1`. An input frame
yields `y >= -1`, and `y >= 0` when no rotation key fired in it. -/
theorem C17_row_amended (s : TetrisGame) (h0 : 0 ≤ s.currentPiece.y) :
    s.moveLeft.currentPiece.y = s.currentPiece.y ∧
      s.moveRight.currentPiece.y = s.currentPiece.y ∧
      s.currentPiece.y ≤ s.softDrop.currentPiece.y ∧
      (∀ (fuel : Nat) (s1 : TetrisGame), TetrisGame.hardDropLoop fuel s = some s1 →
        s.currentPiece.y ≤ s1.currentPiece.y) ∧
      (∀ (t : Rat) (r : Fin 7) (s1 : TetrisGame), s.update t r = some s1 →
        0 ≤ s1.currentPiece.y) ∧
      (∀ r : Fin 7, (s.spawnNewPiece r).currentPiece.y = 0) ∧
      (s.currentPiece.y - 1 ≤ s.rotatePiece.currentPiece.y ∧
        s.rotatePiece.currentPiece.y ≤ s.currentPiece.y ∧
        -1 ≤ s.rotatePiece.currentPiece.y) ∧
      (∀ (inp : Input) (r1 r2 : Fin 7) (fuel : Nat) (s1 : TetrisGame),
        s.handleInput inp r1 r2 fuel = some s1 →
        -1 ≤ s1.currentPiece.y ∧
          ((inp.keyUp || inp.keyW) = false → 0 ≤ s1.currentPiece.y)) :=
  ⟨moveLeft_y s, moveRight_y s, softDrop_y s, fun fuel s1 h => hardDropLoop_y fuel s s1 h,
    fun t r s1 h => update_y s s1 t r h0 h, fun r => spawnNewPiece_y s r,
    ⟨(rotatePiece_y s).1, (rotatePiece_y s).2, by have := (rotatePiece_y s).1; omega⟩,
    fun inp r1 r2 fuel s1 h => handleInput_y s s1 inp r1 r2 fuel h0 h⟩

/-- The amended C17 at `exampleKick`: the rotation lowers the row from 0 by
exactly one. -/
theorem C17_row_amended_witness :
    exampleKick.currentPiece.y - 1 ≤ exampleKick.rotatePiece.currentPiece.y ∧
      exampleKick.rotatePiece.currentPiece.y ≤ exampleKick.currentPiece.y ∧
      -1 ≤ exampleKick.rotatePiece.currentPiece.y :=
  (C17_row_amended exampleKick (by decide)).2.2.2.2.2.2.1

/-! ## Help overlay -/

/-- While the help overlay is open, a gravity update and an input frame
without a button click return the state unchanged, whatever keys fire. -/
theorem step_showHelp (s : TetrisGame) (f : Frame) (hopen : s.showHelp = true)
    (hq : f.noButtonClick) : s.step f = some s := by
  cases f with
  | input inp r1 r2 fuel =>
    unfold Frame.noButtonClick at hq
    have hm : inp.mouseClicked = false ∨
        (inp.restartButtonHovered = false ∧ inp.helpButtonHovered = false ∧
          inp.closeHelpButtonArea = false) := by
      cases h1 : inp.mouseClicked
      · exact Or.inl rfl
      · simp [h1] at hq
        exact Or.inr ⟨hq.1.1, hq.1.2, hq.2⟩
    unfold TetrisGame.step TetrisGame.handleInput
    rcases hm with h | ⟨h1, h2, h3⟩
    · simp [h, hopen]
    · simp [h1, h2, h3, hopen]
  | tick t r =>
    unfold TetrisGame.step TetrisGame.update
    simp [hopen]

theorem run_showHelp (frames : List Frame) (s : TetrisGame) (hopen : s.showHelp = true)
    (hq : ∀ f ∈ frames, f.noButtonClick) : s.run frames = some s := by
  induction frames with
  | nil => rfl
  | cons f fs ih =>
    unfold TetrisGame.run
    rw [List.foldlM_cons, step_showHelp s f hopen (hq f (List.mem_cons_self _ _))]
    exact ih (fun g hg => hq g (List.mem_cons_of_mem _ hg))

theorem run_append (s : TetrisGame) (l1 l2 : List Frame) :
    s.run (l1 ++ l2) = (s.run l1).bind fun t => t.run l2 := by
  unfold TetrisGame.run
  rw [List.foldlM_append]
  rfl

/-- C14. While the help overlay is open, gravity updates and input frames
without a button click return the state unchanged, whatever movement, drop or
rotation keys fire. Opening the overlay by a click on the help button, any
number of such frames, and closing it by a click on the help button or on the
close button (whatever keys fire with the click) give back the state from
before the overlay was opened: flags, playfield, pieces, score, level and
`linesCleared` are as they were. -/
theorem C14_help_overlay_modal (s : TetrisGame) (opening closing : Input)
    (r1 r2 r3 r4 : Fin 7) (fuel1 fuel2 : Nat) (middle : List Frame)
    (hclosed : s.showHelp = false)
    (ho1 : opening.mouseClicked = true) (ho2 : opening.restartButtonHovered = false)
    (ho3 : opening.helpButtonHovered = true)
    (hc1 : closing.mouseClicked = true) (hc2 : closing.restartButtonHovered = false)
    (hc3 : closing.helpButtonHovered = true ∨ closing.closeHelpButtonArea = true)
    (hmid : ∀ f ∈ middle, f.noButtonClick) :
    (∀ (t : TetrisGame) (f : Frame), t.showHelp = true → f.noButtonClick →
        t.step f = some t) ∧
      s.step (Frame.input opening r1 r2 fuel1) = some { s with showHelp := true } ∧
      s.run (Frame.input opening r1 r2 fuel1 :: middle ++ [Frame.input closing r3 r4 fuel2]) =
        some s := by
  have hopen : s.step (Frame.input opening r1 r2 fuel1) = some { s with showHelp := true } := by
    unfold TetrisGame.step TetrisGame.handleInput
    simp [ho1, ho2, ho3, hclosed]
  have hclose : TetrisGame.step { s with showHelp := true } (Frame.input closing r3 r4 fuel2) =
      some s := by
    unfold TetrisGame.step TetrisGame.handleInput
    have hs : ({ s with showHelp := false } : TetrisGame) = s := by
      rw [← hclosed]
    rcases hc3 with h | h
    · simp [hc1, hc2, h, hs]
    · by_cases hh : closing.helpButtonHovered = true
      · simp [hc1, hc2, hh, hs]
      · simp [hc1, hc2, hh, h, hs]
  refine ⟨fun t f ht hf => step_showHelp t f ht hf, hopen, ?_⟩
  have hcons : s.run (Frame.input opening r1 r2 fuel1 ::
      middle ++ [Frame.input closing r3 r4 fuel2]) =
      TetrisGame.run { s with showHelp := true }
        (middle ++ [Frame.input closing r3 r4 fuel2]) := by
    unfold TetrisGame.run
    rw [List.cons_append, List.foldlM_cons, hopen]
    rfl
  rw [hcons, run_append, run_showHelp middle _ rfl hmid]
  show TetrisGame.run { s with showHelp := true } [Frame.input closing r3 r4 fuel2] = some s
  unfold TetrisGame.run
  rw [List.foldlM_cons, hclose]
  rfl

/-- C14 at the constructed game: the overlay is opened by a click on the help
button, a frame with every key but `R` and a gravity update at time 5 pass,
and a click on the close button (space and left firing with it) closes it. -/
theorem C14_help_overlay_modal_witness :
    exampleSquare.run
        (Frame.input Input.helpClick 0 0 0 ::
          [Frame.input Input.allButRestart 0 0 0, Frame.tick 5 0] ++
            [Frame.input Input.closeClick 0 0 0]) =
      some exampleSquare :=
  (C14_help_overlay_modal exampleSquare Input.helpClick Input.closeClick 0 0 0 0 0 0
    [Frame.input Input.allButRestart 0 0 0, Frame.tick 5 0] (by decide) rfl rfl rfl rfl rfl
    (Or.inr rfl) (by
      intro f hf
      simp only [List.mem_cons, List.mem_singleton, List.not_mem_nil, or_false] at hf
      rcases hf with rfl | rfl
      · show (_ : Bool) = false
        rfl
      · trivial)).2.2

/-! ## Level and fall interval -/

theorem SpeedInv.of_speed_eq {s s1 : TetrisGame} (h : SpeedInv s)
    (hb : s1.baseFallSpeed = s.baseFallSpeed) (hl : s1.level = s.level)
    (hf : s1.fallSpeed = s.fallSpeed) : SpeedInv s1 := by
  unfold SpeedInv at *
  rw [hb, hl, hf]
  exact h

theorem OnlyPiece.speedInv {s s1 : TetrisGame} (h : OnlyPiece s s1) (hinv : SpeedInv s) :
    SpeedInv s1 := by
  unfold OnlyPiece at h
  exact hinv.of_speed_eq (by rw [h]) (by rw [h]) (by rw [h])

/-- The fall interval formula of `updateScore` for base interval 1:
`1 / (1 + (L - 1) * 0.1) = 10 / (L + 9)`. -/
theorem interval_formula (L : Rat) (hL : 1 ≤ L) :
    (1 : Rat) / (1 + (L - 1) * (1 / 10)) = 10 / (L + 9) := by
  have h1 : L + 9 ≠ 0 := by
    have : (0 : Rat) < L + 9 := by linarith
    exact ne_of_gt this
  have h2 : 1 + (L - 1) * (1 / 10) ≠ 0 := by
    have : (0 : Rat) < 1 + (L - 1) * (1 / 10) := by linarith
    exact ne_of_gt this
  rw [div_eq_div_iff h2 h1]
  ring

/-- What the speed invariant at two states with ordered levels says about
their fall intervals. -/
theorem speed_facts (s s1 : TetrisGame) (h : SpeedInv s) (h1 : SpeedInv s1)
    (hle : s.level ≤ s1.level) :
    s1.fallSpeed ≤ s.fallSpeed ∧ (s1.fallSpeed < s.fallSpeed ↔ s.level < s1.level) ∧
      (s1.level = s.level → s1.fallSpeed = s.fallSpeed) ∧ 0 < s1.fallSpeed ∧
      s1.fallSpeed = s1.baseFallSpeed / (1 + ((s1.level : Rat) - 1) * (1 / 10)) ∧
      s1.fallSpeed = 10 / ((s1.level : Rat) + 9) := by
  obtain ⟨_, hl, hf⟩ := h
  obtain ⟨hb1, hl1, hf1⟩ := h1
  have hpos : (0 : Rat) < (s.level : Rat) + 9 := by
    have : (1 : Rat) ≤ (s.level : Rat) := by exact_mod_cast hl
    linarith
  have hpos1 : (0 : Rat) < (s1.level : Rat) + 9 := by
    have : (1 : Rat) ≤ (s1.level : Rat) := by exact_mod_cast hl1
    linarith
  have hiff : s1.fallSpeed < s.fallSpeed ↔ s.level < s1.level := by
    rw [hf, hf1, div_lt_div_iff_of_pos_left (by norm_num) hpos1 hpos]
    constructor
    · intro hh
      have : (s.level : Rat) < (s1.level : Rat) := by linarith
      exact_mod_cast this
    · intro hh
      have : (s.level : Rat) < (s1.level : Rat) := by exact_mod_cast hh
      linarith
  refine ⟨?_, hiff, ?_, ?_, ?_, hf1⟩
  · rcases lt_or_eq_of_le hle with hlt | heq
    · exact le_of_lt (hiff.mpr hlt)
    · rw [hf, hf1, heq]
  · intro heq
    rw [hf, hf1, heq]
  · rw [hf1]
    exact div_pos (by norm_num) hpos1
  · rw [hf1, hb1]
    exact (interval_formula _ (by exact_mod_cast hl1)).symm

/-- `updateScore` keeps the speed invariant and never lowers the level. -/
theorem updateScore_speedInv (s s1 : TetrisGame) (n : Int) (hinv : SpeedInv s)
    (h : s.updateScore n = some s1) : SpeedInv s1 ∧ s.level ≤ s1.level := by
  obtain ⟨hb, hl, hf⟩ := hinv
  unfold TetrisGame.updateScore at h
  split at h
  · split at h
    · cases h
    · simp only at h
      split at h
      · next hgt =>
        rw [Option.some.injEq] at h
        subst h
        have hgt1 : s.level < Int.tdiv (s.linesCleared + n) 10 + 1 := hgt
        refine ⟨⟨hb, ?_, ?_⟩, ?_⟩
        · show 1 ≤ Int.tdiv (s.linesCleared + n) 10 + 1
          omega
        · show s.baseFallSpeed /
            (1 + ((Int.tdiv (s.linesCleared + n) 10 + 1 - 1 : Int) : Rat) * (1 / 10)) =
            10 / (((Int.tdiv (s.linesCleared + n) 10 + 1 : Int) : Rat) + 9)
          rw [hb]
          have h1 : (1 : Rat) ≤ ((Int.tdiv (s.linesCleared + n) 10 + 1 : Int) : Rat) := by
            exact_mod_cast (by omega : (1 : Int) ≤ Int.tdiv (s.linesCleared + n) 10 + 1)
          have := interval_formula _ h1
          push_cast at this ⊢
          exact this
        · show s.level ≤ Int.tdiv (s.linesCleared + n) 10 + 1
          omega
      · rw [Option.some.injEq] at h
        subst h
        exact ⟨⟨hb, hl, hf⟩, le_refl _⟩
  · rw [Option.some.injEq] at h
    subst h
    exact ⟨⟨hb, hl, hf⟩, le_refl _⟩

theorem spawnNewPiece_speedInv (s : TetrisGame) (r : Fin 7) (hinv : SpeedInv s) :
    SpeedInv (s.spawnNewPiece r) :=
  hinv.of_speed_eq (by rw [spawnNewPiece_frame]) (by rw [spawnNewPiece_frame])
    (by rw [spawnNewPiece_frame])

theorem restartGame_speedInv (s : TetrisGame) (r1 r2 : Fin 7) (hinv : SpeedInv s) :
    SpeedInv (s.restartGame r1 r2) := by
  rw [restartGame_eq]
  refine ⟨hinv.1, le_refl _, ?_⟩
  show s.baseFallSpeed = 10 / (((1 : Int) : Rat) + 9)
  rw [hinv.1]
  norm_num

theorem construct_speedInv (r1 r2 : Fin 7) : SpeedInv (TetrisGame.construct r1 r2) := by
  unfold TetrisGame.construct
  apply spawnNewPiece_speedInv
  refine ⟨rfl, le_refl _, ?_⟩
  show (1 : Rat) = 10 / (((1 : Int) : Rat) + 9)
  norm_num

/-- A placement keeps the speed invariant and never lowers the level. -/
theorem placePiece_speedInv (s s1 : TetrisGame) (r : Fin 7) (hinv : SpeedInv s)
    (h : s.placePiece r = some s1) : SpeedInv s1 ∧ s.level ≤ s1.level := by
  unfold TetrisGame.placePiece at h
  cases hm : s.mergePiece with
  | none => rw [hm] at h; cases h
  | some a =>
    rw [hm] at h
    simp only at h
    cases hc : a.clearLines with
    | none => rw [hc] at h; cases h
    | some p =>
      obtain ⟨n, b⟩ := p
      rw [hc] at h
      simp only at h
      cases hu : b.updateScore n with
      | none => rw [hu] at h; cases h
      | some c =>
        rw [hu] at h
        simp only [Option.some.injEq] at h
        subst h
        have ha := mergePiece_frame s a hm
        have hb := (clearLines_frame a b n hc).1
        have hbinv : SpeedInv b :=
          hinv.of_speed_eq (by rw [hb, ha]) (by rw [hb, ha]) (by rw [hb, ha])
        have hbl : b.level = s.level := by rw [hb, ha]
        obtain ⟨hcinv, hle⟩ := updateScore_speedInv b c n hbinv hu
        refine ⟨spawnNewPiece_speedInv c r hcinv, ?_⟩
        have : (c.spawnNewPiece r).level = c.level := by rw [spawnNewPiece_frame]
        rw [this, ← hbl]
        exact hle

theorem update_speedInv (s s1 : TetrisGame) (t : Rat) (r : Fin 7) (hinv : SpeedInv s)
    (h : s.update t r = some s1) : SpeedInv s1 := by
  unfold TetrisGame.update at h
  split at h
  · rw [Option.some.injEq] at h; subst h; exact hinv
  · split at h
    · split at h
      · rw [Option.some.injEq] at h; subst h
        exact hinv.of_speed_eq rfl rfl rfl
      · rw [Option.map_eq_some'] at h
        obtain ⟨a, ha, rfl⟩ := h
        exact (placePiece_speedInv s a r hinv ha).1.of_speed_eq rfl rfl rfl
    · rw [Option.some.injEq] at h; subst h; exact hinv

theorem handleKeys_speedInv (s s1 : TetrisGame) (inp : Input) (r1 r2 : Fin 7) (fuel : Nat)
    (hinv : SpeedInv s) (h : s.handleKeys inp r1 r2 fuel = some s1) : SpeedInv s1 := by
  have hP : SpeedInv (s.pauseKey inp) := by
    unfold TetrisGame.pauseKey
    split
    · exact hinv.of_speed_eq rfl rfl rfl
    · exact hinv
  have hR : SpeedInv ((s.pauseKey inp).restartKey inp r1 r2) := by
    unfold TetrisGame.restartKey
    split
    · exact restartGame_speedInv _ _ _ hP
    · exact hP
  unfold TetrisGame.handleKeys TetrisGame.gatedMovement at h
  split at h
  · rw [Option.some.injEq] at h
    rw [← h]
    exact hR
  · exact (handleMovement_onlyPiece _ _ _ _ h).speedInv hR

theorem handleInput_speedInv (s s1 : TetrisGame) (inp : Input) (r1 r2 : Fin 7) (fuel : Nat)
    (hinv : SpeedInv s) (h : s.handleInput inp r1 r2 fuel = some s1) : SpeedInv s1 := by
  unfold TetrisGame.handleInput at h
  split at h
  · rw [Option.some.injEq] at h; subst h; exact restartGame_speedInv _ _ _ hinv
  · split at h
    · rw [Option.some.injEq] at h; subst h; exact hinv.of_speed_eq rfl rfl rfl
    · split at h
      · rw [Option.some.injEq] at h; subst h; exact hinv.of_speed_eq rfl rfl rfl
      · split at h
        · rw [Option.some.injEq] at h; subst h; exact hinv
        · exact handleKeys_speedInv s s1 inp r1 r2 fuel hinv h

/-- Every reachable state satisfies the speed invariant. -/
theorem reachable_speedInv (s : TetrisGame) (h : Reachable s) : SpeedInv s := by
  induction h with
  | construct r1 r2 => exact construct_speedInv r1 r2
  | input s s1 inp r1 r2 fuel _ hstep ih =>
    exact handleInput_speedInv s s1 inp r1 r2 fuel ih hstep
  | update s s1 t r _ hstep ih => exact update_speedInv s s1 t r ih hstep

/-- C15. From a reachable state, `updateScore(n)` with `0 <= n <= 4` returns a
state whose level is not lower and whose fall interval is not larger; the fall
interval is strictly smaller exactly when the level is higher and is unchanged
when the level is; it is strictly positive and equals
`baseFallInterval / (1 + (level - 1) * 0.1)`, which is `10 / (level + 9)` for
the base interval 1 (exact rationals). The same holds from before to after
every placement. -/
theorem C15_level_and_interval (s : TetrisGame) (h : Reachable s) (n : Int) (h0 : 0 ≤ n)
    (h4 : n ≤ 4) :
    (∃ s1 : TetrisGame,
        s.updateScore n = some s1 ∧ s.level ≤ s1.level ∧ s1.fallSpeed ≤ s.fallSpeed ∧
          (s1.fallSpeed < s.fallSpeed ↔ s.level < s1.level) ∧
          (s1.level = s.level → s1.fallSpeed = s.fallSpeed) ∧ 0 < s1.fallSpeed ∧
          s1.fallSpeed = s1.baseFallSpeed / (1 + ((s1.level : Rat) - 1) * (1 / 10)) ∧
          s1.fallSpeed = 10 / ((s1.level : Rat) + 9)) ∧
      ∀ (r : Fin 7) (s1 : TetrisGame), s.placePiece r = some s1 →
        s.level ≤ s1.level ∧ s1.fallSpeed ≤ s.fallSpeed ∧
          (s1.fallSpeed < s.fallSpeed ↔ s.level < s1.level) ∧
          (s1.level = s.level → s1.fallSpeed = s.fallSpeed) ∧ 0 < s1.fallSpeed ∧
          s1.fallSpeed = s1.baseFallSpeed / (1 + ((s1.level : Rat) - 1) * (1 / 10)) ∧
          s1.fallSpeed = 10 / ((s1.level : Rat) + 9) := by
  have hinv := reachable_speedInv s h
  constructor
  · have hrun : ∃ s1, s.updateScore n = some s1 := by
      by_cases hn : n = 0
      · exact ⟨s, by simp [TetrisGame.updateScore, hn]⟩
      · obtain ⟨_, _, hr⟩ := updateScore_pos s n (by omega) h4
        exact ⟨_, hr⟩
    obtain ⟨s1, hrun⟩ := hrun
    obtain ⟨hinv1, hle⟩ := updateScore_speedInv s s1 n hinv hrun
    exact ⟨s1, hrun, hle, speed_facts s s1 hinv hinv1 hle⟩
  · intro r s1 hp
    obtain ⟨hinv1, hle⟩ := placePiece_speedInv s s1 r hinv hp
    exact ⟨hle, speed_facts s s1 hinv hinv1 hle⟩

/-! ## Termination of the line scan -/

theorem rowCount_emptyRow : rowCount emptyRow = 0 := by decide

theorem rowCount_of_full (r : Row) (h : rowFull r = true) : rowCount r = GRID_WIDTH := by
  unfold rowCount
  unfold rowFull at h
  rw [List.all_eq_true] at h
  have : (List.finRange GRID_WIDTH).countP (fun x => decide ((r x).1 ≠ 0)) =
      (List.finRange GRID_WIDTH).length := by
    rw [List.countP_eq_length]
    exact h
  rw [this, List.length_finRange]

/-- Removing the full row `y` takes exactly 15 occupied cells off the
playfield. -/
theorem occupiedCount_removeRow (y : Nat) (h : y < GRID_HEIGHT) (s : TetrisGame)
    (hfull : s.fullLine ⟨y, h⟩ = true) :
    occupiedCount (s.shiftRows y h).clearTopRow + GRID_WIDTH = occupiedCount s := by
  have hy : y < s.rows.length := by rw [rows_length]; exact h
  have hrow : rowFull (s.rows[y]) = true := by
    rw [rows_getElem, ← fullLine_eq_rowFull]; exact hfull
  have hs : s.rows = s.rows.take y ++ s.rows[y] :: s.rows.drop (y + 1) := by
    rw [← List.drop_eq_getElem_cons hy, List.take_append_drop]
  have hs1 : (s.shiftRows y h).clearTopRow.rows =
      (emptyRow :: s.rows.take y) ++ s.rows.drop (y + 1) := by
    rw [← rows_removeRow_take y h s, ← rows_removeRow_drop y h s, List.take_append_drop]
  unfold occupiedCount
  rw [hs1]
  conv_rhs => rw [hs]
  simp only [List.map_append, List.map_cons, List.sum_append, List.sum_cons,
    rowCount_emptyRow, rowCount_of_full _ hrow]
  omega

/-- Each iteration of the outer loop of `clearLines` lowers the measure. -/
theorem clearMeasure_step (y : Nat) (h : y < GRID_HEIGHT) (s : TetrisGame) :
    (s.fullLine ⟨y, h⟩ = true →
        clearMeasure (y + 1) (s.shiftRows y h).clearTopRow < clearMeasure (y + 1) s) ∧
      (s.fullLine ⟨y, h⟩ = false → clearMeasure y s < clearMeasure (y + 1) s) := by
  have hy : y < s.rows.length := by rw [rows_length]; exact h
  have htake : s.rows.take (y + 1) = s.rows.take y ++ [s.rows[y]] := by
    rw [← List.take_concat_get s.rows y hy, List.concat_eq_append]
  have hrow : rowFull (s.rows[y]) = s.fullLine ⟨y, h⟩ := by
    rw [rows_getElem, ← fullLine_eq_rowFull]
  unfold clearMeasure
  constructor
  · intro hfull
    rw [rows_removeRow_take y h s, htake, List.countP_append]
    simp [List.countP_cons, rowFull_emptyRow, hrow, hfull]
  · intro hfull
    rw [htake, List.countP_append]
    omega

/-- More fuel does not change a result of the outer loop of `clearLines`. -/
theorem clearLinesLoop_mono (fuel : Nat) :
    ∀ (n : Nat) (h : n ≤ GRID_HEIGHT) (s : TetrisGame) (cnt : Int) (res : Int × TetrisGame),
      TetrisGame.clearLinesLoop fuel n h s cnt = some res →
      ∀ k : Nat, TetrisGame.clearLinesLoop (fuel + k) n h s cnt = some res := by
  induction fuel with
  | zero =>
    intro n h s cnt res hrun
    unfold TetrisGame.clearLinesLoop at hrun
    cases hrun
  | succ fuel ih =>
    intro n h s cnt res hrun k
    have hk : fuel + 1 + k = (fuel + k) + 1 := by omega
    rw [hk]
    cases n with
    | zero =>
      unfold TetrisGame.clearLinesLoop at hrun ⊢
      exact hrun
    | succ y =>
      unfold TetrisGame.clearLinesLoop at hrun ⊢
      split
      · next hfull =>
        rw [if_pos hfull] at hrun
        exact ih _ _ _ _ _ hrun k
      · next hfull =>
        rw [if_neg hfull] at hrun
        exact ih _ _ _ _ _ hrun k

/-- With fuel above the measure the outer loop of `clearLines` returns, and
the result does not depend on the fuel. -/
theorem clearLinesLoop_total (fuel : Nat) (n : Nat) (h : n ≤ GRID_HEIGHT) (s : TetrisGame)
    (cnt : Int) (hf : clearMeasure n s + 1 ≤ fuel) :
    ∃ res, TetrisGame.clearLinesLoop (clearMeasure n s + 1) n h s cnt = some res ∧
      TetrisGame.clearLinesLoop fuel n h s cnt = some res := by
  obtain ⟨s2, h2, _, _⟩ := clearLinesLoop_spec (clearMeasure n s + 1) n h s cnt (le_refl _)
  refine ⟨_, h2, ?_⟩
  have := clearLinesLoop_mono _ n h s cnt _ h2 (fuel - (clearMeasure n s + 1))
  have hk : clearMeasure n s + 1 + (fuel - (clearMeasure n s + 1)) = fuel := by omega
  rw [hk] at this
  exact this

/-- C20. `clearLines` returns on every 20x15 playfield although it re-examines
the index of a removed row. Each iteration of its outer loop lowers the
measure "full rows among rows `0 .. y`, plus `y + 1`": a removal takes one
full row (15 occupied cells) off the field and leaves row 0 empty, the other
branch moves the index up. With fuel above the measure the loop returns a
result that no further fuel changes, and the fuel of `clearLines` (41) is
above the measure of every playfield. -/
theorem C20_clearLines_terminates (s : TetrisGame) :
    (∃ res, s.clearLines = some res) ∧
      clearMeasure GRID_HEIGHT s + 1 ≤ TetrisGame.clearLinesFuel ∧
      (∀ (fuel n : Nat) (h : n ≤ GRID_HEIGHT) (t : TetrisGame) (cnt : Int),
        clearMeasure n t + 1 ≤ fuel →
        ∃ res, TetrisGame.clearLinesLoop (clearMeasure n t + 1) n h t cnt = some res ∧
          TetrisGame.clearLinesLoop fuel n h t cnt = some res) ∧
      (∀ (y : Nat) (h : y < GRID_HEIGHT) (t : TetrisGame),
        (t.fullLine ⟨y, h⟩ = true →
            clearMeasure (y + 1) (t.shiftRows y h).clearTopRow < clearMeasure (y + 1) t ∧
              occupiedCount (t.shiftRows y h).clearTopRow + 15 = occupiedCount t ∧
              (t.shiftRows y h).clearTopRow.rowOf 0 = emptyRow) ∧
          (t.fullLine ⟨y, h⟩ = false → clearMeasure y t < clearMeasure (y + 1) t)) := by
  have hbound : clearMeasure GRID_HEIGHT s + 1 ≤ TetrisGame.clearLinesFuel := by
    unfold clearMeasure TetrisGame.clearLinesFuel
    have h1 : (s.rows.take GRID_HEIGHT).countP rowFull ≤ (s.rows.take GRID_HEIGHT).length :=
      List.countP_le_length _
    have h2 : (s.rows.take GRID_HEIGHT).length ≤ GRID_HEIGHT := List.length_take_le _ _
    omega
  refine ⟨?_, hbound, ?_, ?_⟩
  · obtain ⟨res, _, hres⟩ :=
      clearLinesLoop_total TetrisGame.clearLinesFuel GRID_HEIGHT (le_refl _) s 0 hbound
    exact ⟨res, hres⟩
  · intro fuel n h t cnt hf
    exact clearLinesLoop_total fuel n h t cnt hf
  · intro y h t
    constructor
    · intro hfull
      refine ⟨(clearMeasure_step y h t).1 hfull, occupiedCount_removeRow y h t hfull, ?_⟩
      rw [rowOf_removeRow]
      rfl
    · exact (clearMeasure_step y h t).2

/-- C20 at `exampleTwoRows`: the scan returns. -/
theorem C20_clearLines_terminates_witness : ∃ res, exampleTwoRows.clearLines = some res :=
  (C20_clearLines_terminates exampleTwoRows).1

/-! ## The statements of the invariants at concrete states -/

/-- `exampleDropped` is what a frame with only the space key makes of the
constructed game. -/
theorem handleInput_exampleSquare_space :
    exampleSquare.handleInput Input.spaceOnly 0 0 30 = some exampleDropped := by
  rfl

theorem reachable_exampleDropped : Reachable exampleDropped :=
  Reachable.input exampleSquare exampleDropped Input.spaceOnly 0 0 30
    (Reachable.construct 1 1) handleInput_exampleSquare_space

/-- C11 at a game that is over: the restart with draws 3 and 4 gives a running
game with the piece of variant 3 at column 5, row 0. -/
theorem C11_restartGame_witness :
    (exampleOver.restartGame 3 4).gameOver = false ∧
      (exampleOver.restartGame 3 4).currentPiece.shape = TETROMINO_SHAPES 3 ∧
      (exampleOver.restartGame 3 4).currentPiece.x = 5 ∧
      (exampleOver.restartGame 3 4).currentPiece.y = 0 :=
  ⟨(C11_restartGame_spec exampleOver 3 4).2.2.2.2.2.2.2.2.2.1,
    (C11_restartGame_spec exampleOver 3 4).2.2.2.2.2.2.2.2.2.2.1,
    (C11_restartGame_spec exampleOver 3 4).2.2.2.2.2.2.2.2.2.2.2.2.1,
    (C11_restartGame_spec exampleOver 3 4).2.2.2.2.2.2.2.2.2.2.2.2.2⟩

/-- C12 at the dropped square: one more row down would leave the field, and
the soft drop is rejected. -/
theorem C12_bounds_invariant_witness : exampleDropped.softDrop = exampleDropped :=
  (C12_bounds_invariant exampleDropped reachable_exampleDropped).2.2.2.2.2.2.2.1
    (by unfold InBounds; decide)

/-- C19 at the dropped square: it does not collide where it rests. -/
theorem C19_no_overlap_witness :
    exampleDropped.checkCollision exampleDropped.currentPiece 0 0 = false :=
  (C19_no_overlap exampleDropped reachable_exampleDropped (by decide)).1

/-! ## Hard drop, in any frame that accepts it -/

theorem wrapInt32_eq (z : Int) (h : InInt32 z) : wrapInt32 z = z := by
  obtain ⟨h1, h2⟩ := h
  unfold wrapInt32
  omega

theorem inInt32_tdiv (x : Int) (h : InInt32 x) :
    InInt32 (Int.tdiv x 10 + 1) ∧ InInt32 (Int.tdiv x 10 + 1 - 1) := by
  obtain ⟨h1, h2⟩ := h
  unfold InInt32
  rcases le_total 0 x with hx | hx
  · rw [Int.tdiv_eq_ediv hx (by decide)]
    omega
  · have hneg : Int.tdiv x 10 = -(Int.tdiv (-x) 10) := by
      rw [Int.neg_tdiv, neg_neg]
    rw [hneg, Int.tdiv_eq_ediv (by omega) (by decide)]
    omega

/-- When the three `int` results of the scoring lines stay in range,
`updateScore32` is `updateScore`. -/
theorem updateScore32_eq (s : TetrisGame) (n v : Int)
    (hv : SCORE_VALUES[(n - 1).toNat]? = some v)
    (hmul : InInt32 (v * s.level)) (hsum : InInt32 (s.score + v * s.level))
    (hlines : InInt32 (s.linesCleared + n)) :
    s.updateScore32 n = s.updateScore n := by
  unfold TetrisGame.updateScore32 TetrisGame.updateScore
  rw [hv]
  simp only
  rw [wrapInt32_eq _ hmul, wrapInt32_eq _ hsum, wrapInt32_eq _ hlines,
    wrapInt32_eq _ (inInt32_tdiv _ hlines).1, wrapInt32_eq _ (inInt32_tdiv _ hlines).2]

/-- C5, as stated, fails at the edge of the `int` range: at level 1 with
score 2147483640, `updateScore(1)` does not leave `score + 40 * level` in
`score`; the 32-bit sum is -2147483616. -/
theorem C5_score_overflow :
    (exampleNearMaxScore.score, exampleNearMaxScore.level) = (2147483640, 1) ∧
      ((exampleNearMaxScore.updateScore32 1).map fun s1 => s1.score) = some (-2147483616) ∧
      ((exampleNearMaxScore.updateScore32 1).map fun s1 =>
          decide (s1.score = exampleNearMaxScore.score + 40 * exampleNearMaxScore.level)) =
        some false := by
  decide

/-- C5, amended. At level `L`, for `n = 1, 2, 3, 4` with table value
`v = 40, 100, 300, 1200`, when `v * L`, `score + v * L` and `linesCleared + n`
lie in the range of a 32-bit `int`, `updateScore(n)` adds exactly `v * L` to
the score, `L` being the level before the call, and adds `n` to
`linesCleared`; the delta is a function of `n` and `L` alone, and the call is
the one computed over the integers. `updateScore(0)` changes nothing. -/
theorem C5_updateScore_amended (s : TetrisGame) (n v : Int)
    (hnv : (n = 1 ∧ v = 40) ∨ (n = 2 ∧ v = 100) ∨ (n = 3 ∧ v = 300) ∨ (n = 4 ∧ v = 1200))
    (hmul : InInt32 (v * s.level)) (hsum : InInt32 (s.score + v * s.level))
    (hlines : InInt32 (s.linesCleared + n)) :
    (∃ s1 : TetrisGame,
        s.updateScore32 n = some s1 ∧ s1.score = s.score + v * s.level ∧
          s1.linesCleared = s.linesCleared + n) ∧
      s.updateScore32 n = s.updateScore n ∧
      s.updateScore32 0 = some s := by
  have hv : SCORE_VALUES[(n - 1).toNat]? = some v := by
    rcases hnv with ⟨rfl, rfl⟩ | ⟨rfl, rfl⟩ | ⟨rfl, rfl⟩ | ⟨rfl, rfl⟩ <;> decide
  have h14 : 1 ≤ n ∧ n ≤ 4 := by
    rcases hnv with ⟨rfl, rfl⟩ | ⟨rfl, rfl⟩ | ⟨rfl, rfl⟩ | ⟨rfl, rfl⟩ <;> decide
  have heq := updateScore32_eq s n v hv hmul hsum hlines
  refine ⟨?_, heq, by simp [TetrisGame.updateScore32]⟩
  rw [heq]
  exact updateScore_score_lines s n v h14.1 h14.2 hv

/-- C5, amended, at level 3 with 28 lines and score 1000: four lines add
1200 * 3 to the score, taken at the level before the call. -/
theorem C5_updateScore_amended_witness :
    (∃ s1 : TetrisGame,
        exampleLevel3.updateScore32 4 = some s1 ∧
          s1.score = exampleLevel3.score + 1200 * exampleLevel3.level ∧
          s1.linesCleared = exampleLevel3.linesCleared + 4) ∧
      exampleLevel3.updateScore32 4 = exampleLevel3.updateScore 4 ∧
      exampleLevel3.updateScore32 0 = some exampleLevel3 :=
  C5_updateScore_amended exampleLevel3 4 1200 (by decide) (by unfold InInt32; decide)
    (by unfold InInt32; decide) (by unfold InInt32; decide)

/-- The same call, evaluated with the width of `int`: score 4600, 32 lines,
level 4. -/
theorem updateScore32_exampleLevel3 :
    ((exampleLevel3.updateScore32 4).map fun s1 => (s1.score, s1.linesCleared, s1.level)) =
      some (4600, 32, 4) := by
  decide

/-! ## A game that reaches level 2 -/

theorem tetromino_same_eq (p q : Tetromino) (h : p.same q = true) : p = q := by
  unfold Tetromino.same at h
  simp only [Bool.and_eq_true, List.all_eq_true, decide_eq_true_eq, List.mem_finRange,
    true_implies] at h
  obtain ⟨⟨⟨⟨hs, hc⟩, hx⟩, hy⟩, ht⟩ := h
  cases p
  cases q
  simp only [Tetromino.mk.injEq]
  exact ⟨funext fun r => funext fun c => hs r c, funext hc, hx, hy, ht⟩

theorem game_same_eq (a b : TetrisGame) (h : a.same b = true) : a = b := by
  unfold TetrisGame.same at h
  simp only [Bool.and_eq_true, List.all_eq_true, decide_eq_true_eq, List.mem_finRange,
    true_implies] at h
  obtain ⟨⟨⟨⟨⟨⟨⟨⟨⟨⟨⟨hg, hcur⟩, hnext⟩, h1⟩, h2⟩, h3⟩, h4⟩, h5⟩, h6⟩, h7⟩, h8⟩, h9⟩ := h
  have hcur1 := tetromino_same_eq _ _ hcur
  have hnext1 := tetromino_same_eq _ _ hnext
  cases a
  cases b
  simp only [TetrisGame.mk.injEq]
  exact ⟨funext fun y => funext fun x => (hg y x).1,
    funext fun y => funext fun x => funext fun i => (hg y x).2 i,
    hcur1, hnext1, h1, h2, h3, h4, h5, h6, h7, h8, h9⟩

/-- A run whose result compares equal to `t` returns `t`. -/
theorem run_eq_of_same (s t : TetrisGame) (frames : List Frame)
    (h : ((s.run frames).map fun s1 => s1.same t) = some true) : s.run frames = some t := by
  cases hrun : s.run frames with
  | none => rw [hrun] at h; exact absurd h (by simp)
  | some s1 =>
    rw [hrun] at h
    simp only [Option.map_some', Option.some.injEq] at h
    rw [game_same_eq s1 t h]

/-- Running frames from a reachable state gives a reachable state. -/
theorem reachable_run (frames : List Frame) :
    ∀ s s1 : TetrisGame, Reachable s → s.run frames = some s1 → Reachable s1 := by
  induction frames with
  | nil =>
    intro s s1 hs h
    simp only [TetrisGame.run, List.foldlM, pure, Option.some.injEq] at h
    subst h
    exact hs
  | cons f fs ih =>
    intro s s1 hs h
    simp only [TetrisGame.run, List.foldlM_cons, bind, Option.bind] at h
    cases hstep : s.step f with
    | none => rw [hstep] at h; exact absurd h (by simp)
    | some s2 =>
      rw [hstep] at h
      refine ih s2 s1 ?_ h
      cases f with
      | input inp r1 r2 fuel => exact Reachable.input s s2 inp r1 r2 fuel hs hstep
      | tick t r => exact Reachable.update s s2 t r hs hstep

theorem exampleStack_zero : exampleStack 0 = TetrisGame.construct 0 0 :=
  game_same_eq _ _ (by decide)

set_option maxRecDepth 1000000 in
/-- Pieces 0 .. 13 fill rows 16 .. 19 in columns 0 .. 13. -/
theorem exampleStack_run_first :
    (exampleStack 0).run (stackFrames 0 14) = some (exampleStack 14) :=
  run_eq_of_same _ _ _ (by decide!)

set_option maxRecDepth 1000000 in
/-- Pieces 14 .. 27 fill rows 12 .. 15 in columns 0 .. 13. -/
theorem exampleStack_run_second :
    (exampleStack 14).run (stackFrames 14 28) = some (exampleStack 28) :=
  run_eq_of_same _ _ _ (by decide!)

set_option maxRecDepth 1000000 in
/-- Pieces 28 .. 41 fill rows 8 .. 11 in columns 0 .. 13. -/
theorem exampleStack_run_third :
    (exampleStack 28).run (stackFrames 28 42) = some (exampleStack 42) :=
  run_eq_of_same _ _ _ (by decide!)

theorem reachable_exampleStack : Reachable (exampleStack 42) := by
  have h0 : Reachable (exampleStack 0) := by
    rw [exampleStack_zero]
    exact Reachable.construct 0 0
  have h1 := reachable_run _ _ _ h0 exampleStack_run_first
  have h2 := reachable_run _ _ _ h1 exampleStack_run_second
  exact reachable_run _ _ _ h2 exampleStack_run_third

set_option maxRecDepth 1000000 in
/-- The next line piece, turned, moved to column 14 and hard-dropped, rests in
rows 16 .. 19. -/
theorem exampleResting_run : (exampleStack 42).run (dropFrames 14) = some exampleResting :=
  run_eq_of_same _ _ _ (by decide!)

theorem reachable_exampleResting : Reachable exampleResting :=
  reachable_run _ _ _ reachable_exampleStack exampleResting_run

set_option maxRecDepth 1000000 in
/-- The placement at `exampleResting` completes rows 16 .. 19: `clearLines`
returns 4. -/
theorem exampleResting_clearLines :
    ((exampleResting.mergePiece.bind fun s1 => s1.clearLines).map fun p => p.1) = some 4 := by
  decide!

set_option maxRecDepth 1000000 in
/-- Placements 43 and 44 clear four rows each and leave level 1; placement 45
clears four more, and the level is 2 with 12 lines. -/
theorem exampleLevelUp_eval :
    (((exampleStack 42).run (stackFrames 42 44)).bind fun s =>
        (s.run (stackFrames 44 45)).map fun s1 =>
          ((s.linesCleared, s.level), (s1.linesCleared, s1.level))) =
      some ((8, 1), (12, 2)) := by
  decide!

theorem exampleEightLines_run :
    (exampleStack 42).run (stackFrames 42 44) = some exampleEightLines ∧
      exampleEightLines.run (stackFrames 44 45) = some exampleLevelUp ∧
      exampleEightLines.linesCleared = 8 ∧ exampleEightLines.level = 1 ∧
      exampleLevelUp.linesCleared = 12 ∧ exampleLevelUp.level = 2 := by
  have h := exampleLevelUp_eval
  unfold exampleLevelUp exampleEightLines
  cases h1 : (exampleStack 42).run (stackFrames 42 44) with
  | none => rw [h1] at h; exact absurd h (by simp)
  | some s =>
    rw [h1] at h
    simp only [Option.some_bind, Option.getD_some] at h ⊢
    cases h2 : s.run (stackFrames 44 45) with
    | none => rw [h2] at h; exact absurd h (by simp)
    | some s1 =>
      rw [h2] at h
      simp only [Option.map_some', Option.some.injEq, Prod.mk.injEq, Option.getD_some] at h ⊢
      exact ⟨trivial, trivial, h.1.1, h.1.2, h.2.1, h.2.2⟩

theorem reachable_exampleEightLines : Reachable exampleEightLines :=
  reachable_run _ _ _ reachable_exampleStack exampleEightLines_run.1

theorem reachable_exampleLevelUp : Reachable exampleLevelUp :=
  reachable_run _ _ _ reachable_exampleEightLines exampleEightLines_run.2.1

/-- C6 along the stacking game: after 44 placements 8 lines are cleared and
the level is 1; the 45th placement clears four rows, crossing 10, and in the
state it returns the level is 2 with 12 lines. -/
theorem C6_level_invariant_witness :
    (exampleEightLines.linesCleared = 8 ∧ exampleEightLines.level = 1 ∧
        0 ≤ exampleEightLines.linesCleared ∧
        exampleEightLines.level = Int.tdiv exampleEightLines.linesCleared 10 + 1 ∧
        exampleEightLines.level = exampleEightLines.linesCleared / 10 + 1) ∧
      exampleLevelUp.linesCleared = 12 ∧ exampleLevelUp.level = 2 ∧
      0 ≤ exampleLevelUp.linesCleared ∧
      exampleLevelUp.level = Int.tdiv exampleLevelUp.linesCleared 10 + 1 ∧
      exampleLevelUp.level = exampleLevelUp.linesCleared / 10 + 1 :=
  ⟨⟨exampleEightLines_run.2.2.1, exampleEightLines_run.2.2.2.1,
      C6_level_invariant exampleEightLines reachable_exampleEightLines⟩,
    exampleEightLines_run.2.2.2.2.1, exampleEightLines_run.2.2.2.2.2,
    C6_level_invariant exampleLevelUp reachable_exampleLevelUp⟩

/-- C15 at the stacking game after 44 placements (8 lines, level 1) with four
cleared lines: the level rises to 2 and the fall interval drops from 1 to
10/11. -/
theorem C15_level_and_interval_witness :
    ∃ s1 : TetrisGame,
      exampleEightLines.updateScore 4 = some s1 ∧ exampleEightLines.level = 1 ∧
        s1.level = 2 ∧ exampleEightLines.level ≤ s1.level ∧
        s1.fallSpeed ≤ exampleEightLines.fallSpeed ∧
        s1.fallSpeed < exampleEightLines.fallSpeed ∧
        (s1.fallSpeed < exampleEightLines.fallSpeed ↔ exampleEightLines.level < s1.level) ∧
        0 < s1.fallSpeed ∧
        s1.fallSpeed = s1.baseFallSpeed / (1 + ((s1.level : Rat) - 1) * (1 / 10)) ∧
        s1.fallSpeed = 10 / 11 := by
  obtain ⟨s1, hrun, hle, hfs, hiff, _, hpos, hform, h10⟩ :=
    (C15_level_and_interval exampleEightLines reachable_exampleEightLines 4 (by decide)
      (by decide)).1
  have hlines : exampleEightLines.linesCleared = 8 := exampleEightLines_run.2.2.1
  have hlevel : exampleEightLines.level = 1 := exampleEightLines_run.2.2.2.1
  have hl2 : s1.level = 2 := by
    obtain ⟨v, _, hclosed⟩ := updateScore_pos exampleEightLines 4 (by decide) (by decide)
    rw [hrun, hlines, hlevel, if_pos (by decide), Option.some.injEq] at hclosed
    rw [hclosed]
    show Int.tdiv (8 + 4) 10 + 1 = 2
    decide
  have hlt : exampleEightLines.level < s1.level := by
    rw [hlevel, hl2]
    decide
  refine ⟨s1, hrun, hlevel, hl2, hle, hfs, hiff.mpr hlt, hiff, hpos, hform, ?_⟩
  rw [h10, hl2]
  norm_num

/-- C18 at the line piece resting in column 14 beside three layers of
columns 0 .. 13: no row is full before the placement, the placement completes
rows 16 .. 19, `clearLines` returns 4, `updateScore(4)` reads `SCORE_VALUES[3]`
and the placement runs through. -/
theorem C18_at_most_four_rows_witness :
    (∀ y : Fin GRID_HEIGHT, exampleResting.fullLine y = false) ∧
      ∃ (s1 s2 s3 : TetrisGame) (n : Int),
        exampleResting.mergePiece = some s1 ∧ s1.clearLines = some (n, s2) ∧ n = 4 ∧
          0 ≤ n ∧ n ≤ 4 ∧ SCORE_VALUES[(n - 1).toNat]? = some 1200 ∧
          s2.updateScore n = some s3 ∧
          exampleResting.placePiece 0 = some (s3.spawnNewPiece 0) := by
  refine ⟨(C18_at_most_four_rows exampleResting reachable_exampleResting).1, ?_⟩
  obtain ⟨s1, s2, s3, n, h1, h2, h3, h4, _, h6, h7⟩ :=
    (C18_at_most_four_rows exampleResting reachable_exampleResting).2 0
  have hn : n = 4 := by
    have h := exampleResting_clearLines
    rw [h1] at h
    simp only [Option.some_bind, h2, Option.map_some', Option.some.injEq] at h
    exact h
  refine ⟨s1, s2, s3, n, h1, h2, hn, h3, h4, ?_, h6, h7⟩
  rw [hn]
  decide

end Tetris
